import Mathlib

/-!
Verification of the Markdown normalization engine of `markdown_forge`.

The Python sources are shallowly embedded: strings are Lean `String`s
(lists of characters), each rewriting pass is a structurally recursive
function over lines, and the regular expressions of the source are
translated into explicit character-level scanners with the same
semantics on the inputs the tools process (ASCII character classes).
-/

/-! ### Python string primitives -/

/-- Whitespace characters recognised by Python's `str.strip` / `\s`. -/
def wsC (c : Char) : Bool :=
  c = ' ' || c = '\t' || c = '\n' || c = '\r' || c = Char.ofNat 11 || c = Char.ofNat 12

def lstripL (l : List Char) : List Char := l.dropWhile wsC

def rstripL (l : List Char) : List Char := ((l.reverse.dropWhile wsC)).reverse

def stripL (l : List Char) : List Char := rstripL (lstripL l)

/-- Python `str.strip()`. -/
def pyStrip (s : String) : String := ⟨stripL s.data⟩

/-- Python `str.lstrip()`. -/
def pyLstrip (s : String) : String := ⟨lstripL s.data⟩

/-- Python `str.rstrip()`. -/
def pyRstrip (s : String) : String := ⟨rstripL s.data⟩

/-- Python `str.lstrip(" ")` (spaces only). -/
def pyLstripSpaces (s : String) : String := ⟨s.data.dropWhile (· = ' ')⟩

/-- Python `a.startswith(b)`. -/
def pyStartsWith (s p : String) : Bool := p.data.isPrefixOf s.data

/-- Python `a.endswith(b)`. -/
def pyEndsWith (s p : String) : Bool := p.data.isSuffixOf s.data

/-- Python `c in s` for a single character. -/
def pyHasChar (s : String) (c : Char) : Bool := s.data.contains c

/-- Python `needle in hay` (substring test). -/
def pySubstr (needle : List Char) : List Char → Bool
  | [] => needle.isEmpty
  | c :: cs => needle.isPrefixOf (c :: cs) || pySubstr needle cs

/-- Python `str.lower()` (ASCII range, which is all these tools feed it). -/
def pyLower (s : String) : String := ⟨s.data.map Char.toLower⟩

/-- Python `str.rstrip(":")` used on normalized heading text. -/
def pyRstripColon (s : String) : String := ⟨((s.data.reverse.dropWhile (· = ':'))).reverse⟩

/-! ### ISBN normalization (`epub_markdown_cleanup.normalize_isbn` / `extract_isbn`) -/

/-- Character class `[0-9Xx]` kept by `re.sub(r"[^0-9Xx]", "", raw)`. -/
def isbnKeepChar (c : Char) : Bool := c.isDigit || c = 'X' || c = 'x'

def filterIsbnChars (raw : String) : String := ⟨raw.data.filter isbnKeepChar⟩

/-- `re.fullmatch(r"[0-9]{9}[0-9Xx]", cleaned)` for a ten character candidate. -/
def isbn10FullMatch (l : List Char) : Bool :=
  l.length = 10 && (l.take 9).all Char.isDigit &&
    (match l.getLast? with
     | some c => isbnKeepChar c
     | none => false)

/-- `normalize_isbn`: strip non-`[0-9Xx]` characters, accept length 13 (all
digits) as is, length 10 (`[0-9]{9}[0-9Xx]`) uppercased, otherwise `None`. -/
def normalize_isbn (raw : String) : Option String :=
  if raw = "" then none
  else
    let cleaned := filterIsbnChars raw
    if cleaned.data.length = 13 && cleaned.data.all Char.isDigit then some cleaned
    else if cleaned.data.length = 10 && isbn10FullMatch cleaned.data then
      some ⟨cleaned.data.map Char.toUpper⟩
    else none

/-- `\w` (ASCII), used for the `\b` boundary in `ISBN_PATTERN`. -/
def wordChar (c : Char) : Bool := c.isAlphanum || c = '_'

/-- Character class `[0-9Xx\s-]` of the ISBN capture run. -/
def isbnRunChar (c : Char) : Bool := isbnKeepChar c || wsC c || c = '-'

/-- Greedy backtracking tail of `[0-9Xx\s-]{8,}[0-9Xx]`: length of the longest
prefix of the run that is at least nine characters and ends in `[0-9Xx]`. -/
def isbnGreedyGo : List Char → Option Nat
  | [] => none
  | c :: rest =>
    if rest.length + 1 < 9 then none
    else if isbnKeepChar c then some (rest.length + 1)
    else isbnGreedyGo rest

def isbnGreedyLen (run : List Char) : Option Nat := isbnGreedyGo run.reverse

/-- Case-insensitive literal `ISBN`. -/
def stripIsbnKeyword : List Char → Option (List Char)
  | a :: b :: c :: d :: rest =>
    if a.toLower = 'i' && b.toLower = 's' && c.toLower = 'b' && d.toLower = 'n' then
      some rest
    else none
  | _ => none

/-- Optional `(?:-1[03])?`. Returns the remaining input and consumed length. -/
def stripIsbnEdition : List Char → (List Char × Nat)
  | '-' :: '1' :: '0' :: rest => (rest, 3)
  | '-' :: '1' :: '3' :: rest => (rest, 3)
  | cs => (cs, 0)

/-- Optional `:?`. -/
def stripIsbnColon : List Char → (List Char × Nat)
  | ':' :: rest => (rest, 1)
  | cs => (cs, 0)

/-- `ISBN_PATTERN` matched at the current position (which must sit at a `\b`
boundary handled by the caller). Returns the capture group and the total
number of characters consumed by the whole match. -/
def matchIsbnAt (cs : List Char) : Option (List Char × Nat) :=
  match stripIsbnKeyword cs with
  | none => none
  | some afterKw =>
    let (afterEd, nEd) := stripIsbnEdition afterKw
    let (afterCol, nCol) := stripIsbnColon afterEd
    let nWs := (afterCol.takeWhile wsC).length
    let afterWs := afterCol.drop nWs
    match afterWs with
    | [] => none
    | d :: tl =>
      if d.isDigit then
        let run := tl.takeWhile isbnRunChar
        match isbnGreedyLen run with
        | some k => some (d :: run.take k, 4 + nEd + nCol + nWs + 1 + k)
        | none => none
      else none

/-- `finditer` loop of `extract_isbn`: scan left to right, skip past failed
matches, return the first capture that `normalize_isbn` accepts. `prevWord`
tracks whether the previous character was a `\w` character (for `\b`). -/
def isbnScanGo : Nat → Bool → List Char → Option String
  | 0, _, _ => none
  | _ + 1, _, [] => none
  | fuel + 1, prevWord, c :: rest =>
    match (if prevWord then none else matchIsbnAt (c :: rest)) with
    | some (cap, n) =>
      match normalize_isbn ⟨cap⟩ with
      | some s => some s
      | none =>
        isbnScanGo fuel
          (match ((c :: rest).take n).getLast? with
           | some lc => wordChar lc
           | none => prevWord)
          ((c :: rest).drop n)
    | none => isbnScanGo fuel (wordChar c) rest

def firstNormalizableIsbn : List String → Option String
  | [] => none
  | c :: cs =>
    match normalize_isbn c with
    | some s => some s
    | none => firstNormalizableIsbn cs

/-- `extract_isbn`: first usable `ISBN_PATTERN` capture in the text, falling
back to the supplied identifier candidates. -/
def extract_isbn (text : String) (fallback_identifiers : List String) : Option String :=
  match isbnScanGo (text.data.length + 1) false text.data with
  | some s => some s
  | none => firstNormalizableIsbn fallback_identifiers

/-! ### pdf_markdown_cleanup: whitespace and paragraph normalisation -/

/-- `FENCE_PREFIXES` test: the lstripped line starts with ``` or ~~~. -/
def fenceLine (s : String) : Bool :=
  pyStartsWith (pyLstrip s) "```" || pyStartsWith (pyLstrip s) "~~~"

/-- `LIST_MARKER_RE = ^(?:[-*+]\s+|\d+[.)]\s+|[A-Za-z][.)]\s+)` matched at the
start of a stripped line. -/
def listMarkerMatch : List Char → Bool
  | [] => false
  | c :: rest =>
    if c = '-' || c = '*' || c = '+' then
      match rest with
      | d :: _ => wsC d
      | [] => false
    else if c.isDigit then
      let ds := rest.takeWhile Char.isDigit
      match rest.drop ds.length with
      | p :: d :: _ => (p = '.' || p = ')') && wsC d
      | _ => false
    else if c.isAlpha then
      match rest with
      | p :: d :: _ => (p = '.' || p = ')') && wsC d
      | _ => false
    else false

/-- `FOOTNOTE_DEF_RE = ^\[\^[^\]]+\]:` matched at the start of a line. -/
def footnoteDefMatch : List Char → Bool
  | '[' :: '^' :: rest =>
    let body := rest.takeWhile (· ≠ ']')
    decide (1 ≤ body.length) &&
      (match rest.drop body.length with
       | ']' :: ':' :: _ => true
       | _ => false)
  | _ => false

/-- `is_paragraph_candidate`. -/
def is_paragraph_candidate (original_line : String) : Bool :=
  let stripped := pyStrip original_line
  if stripped = "" then false
  else if decide (4 ≤ (original_line.data.takeWhile (· = ' ')).length) then false
  else if pyStartsWith stripped "#" then false
  else if pyStartsWith stripped ">" then false
  else if pyStartsWith stripped "|" then false
  else if stripped = "---" || stripped = "***" || stripped = "___" then false
  else if pyStartsWith stripped "<" && pyEndsWith stripped ">" then false
  else if listMarkerMatch stripped.data then false
  else if footnoteDefMatch stripped.data then false
  else true

/-- Loop body of `combine_paragraph_lines`: fold one fragment into the
accumulated paragraph text. -/
def combineStep (combined : String) (part : String) : String :=
  let chunk := pyStrip part
  if chunk = "" then combined
  else if combined ≠ "" then
    if pyEndsWith combined "-" && !(pyEndsWith combined "--") then
      ⟨combined.data.dropLast ++ chunk.data⟩
    else combined ++ " " ++ chunk
  else chunk

/-- `combine_paragraph_lines`. -/
def combine_paragraph_lines (lines : List String) : String :=
  lines.foldl combineStep ""

/-- `flush_buffer` of `unwrap_paragraphs`: emit the joined paragraph and one
blank line when the buffer joins to non-empty text. -/
def flushPara (buffer : List String) : List String :=
  let paragraph := combine_paragraph_lines buffer
  if paragraph = "" then [] else [paragraph, ""]

/-- Traversal of `unwrap_paragraphs` with its `in_code_block` flag and the
pending paragraph buffer. -/
def unwrapGo (inCode : Bool) (buffer : List String) : List String → List String
  | [] => flushPara buffer
  | line :: rest =>
    let current := pyRstrip line
    if fenceLine current then
      flushPara buffer ++ current :: unwrapGo (!inCode) [] rest
    else if inCode then
      current :: unwrapGo inCode buffer rest
    else if pyStrip current = "" then
      flushPara buffer ++ "" :: unwrapGo inCode [] rest
    else if is_paragraph_candidate current then
      unwrapGo inCode (buffer ++ [current]) rest
    else
      flushPara buffer ++ current :: unwrapGo inCode [] rest

/-- `unwrap_paragraphs` (the trailing blank produced by the final flush is
popped). -/
def unwrap_paragraphs (lines : List String) : List String :=
  let result := unwrapGo false [] lines
  match result.getLast? with
  | some l => if l = "" then result.dropLast else result
  | none => result

/-- `WHITESPACE_RUN_RE.sub(" ", rest)`: each maximal run of two or more
spaces/tabs becomes a single space; `run` holds the reversed pending run. -/
def collapseRunsGo (run : List Char) : List Char → List Char
  | [] => if decide (2 ≤ run.length) then [' '] else run.reverse
  | c :: rest =>
    if c = ' ' || c = '\t' then collapseRunsGo (c :: run) rest
    else
      (if decide (2 ≤ run.length) then [' '] else run.reverse) ++
        c :: collapseRunsGo [] rest

def collapseWsRuns (l : List Char) : List Char := collapseRunsGo [] l

/-- `collapse_internal_whitespace` with its `in_code_block` flag. -/
def ciwGo (inCode : Bool) : List String → List String
  | [] => []
  | line :: rest =>
    if fenceLine line then pyRstrip line :: ciwGo (!inCode) rest
    else if inCode then pyRstrip line :: ciwGo inCode rest
    else
      let leading := line.data.takeWhile (· = ' ')
      pyRstrip ⟨leading ++ collapseWsRuns (line.data.drop leading.length)⟩ ::
        ciwGo inCode rest

def collapse_internal_whitespace (lines : List String) : List String := ciwGo false lines

/-- `collapse_blank_lines` of `pdf_markdown_cleanup` with its `blank_streak`
counter. -/
def cblGo (blankStreak : Nat) : List String → List String
  | [] => []
  | line :: rest =>
    if line = "" then
      if decide (1 < blankStreak + 1) then cblGo (blankStreak + 1) rest
      else line :: cblGo (blankStreak + 1) rest
    else line :: cblGo 0 rest

def collapse_blank_lines (lines : List String) : List String := cblGo 0 lines

/-- `text.replace(" ", " ")`. -/
def nbspReplace (s : String) : String :=
  ⟨s.data.map (fun c => if c = Char.ofNat 160 then ' ' else c)⟩

/-- Python `str.splitlines()` for newline-separated text (the tools read and
write `\n`-terminated UTF-8 text). -/
def splitlinesGo (acc : List Char) : List Char → List (List Char)
  | [] => if acc.isEmpty then [] else [acc.reverse]
  | c :: rest =>
    if c = '\n' then acc.reverse :: splitlinesGo [] rest
    else splitlinesGo (c :: acc) rest

def pySplitlines (s : String) : List String :=
  (splitlinesGo [] s.data).map (fun l => ⟨l⟩)

/-- `"\n".join(lines)`. -/
def joinNl (lines : List String) : String :=
  ⟨List.intercalate ['\n'] (lines.map String.data)⟩

/-- `normalise_text` of `pdf_markdown_cleanup`. -/
def normalise_text (text : String) : String :=
  let t := nbspReplace text
  let lines := pySplitlines t
  let lines := unwrap_paragraphs lines
  let lines := collapse_internal_whitespace lines
  let lines := collapse_blank_lines lines
  pyStrip (joinNl lines) ++ "\n"

/-! ### epub_markdown_cleanup: headings, slugs, TOC -/

/-- `HEADING_PATTERN = ^(#{1,6})\s+(.*)$`. Returns the heading level and the
raw group 2 text (everything after the whitespace run). -/
def headingMatch (line : String) : Option (Nat × String) :=
  let hashes := line.data.takeWhile (· = '#')
  let k := hashes.length
  if 1 ≤ k ∧ k ≤ 6 then
    let rest := line.data.drop k
    let ws := rest.takeWhile wsC
    if 1 ≤ ws.length then some (k, ⟨rest.drop ws.length⟩) else none
  else none

/-- Collapse runs of hyphens to a single hyphen (`re.sub(r"-+", "-", slug)`);
`prevHyphen` remembers whether the previous emitted character was one. -/
def hyphenCollapseGo (prevHyphen : Bool) : List Char → List Char
  | [] => []
  | c :: rest =>
    if c = '-' then
      if prevHyphen then hyphenCollapseGo true rest
      else '-' :: hyphenCollapseGo true rest
    else c :: hyphenCollapseGo false rest

/-- `slugify_heading`: strip + lowercase, drop `[^\w\s-]`, turn whitespace
runs into hyphens, collapse hyphen runs, strip outer hyphens. (Replacing
each whitespace character by `-` and then collapsing `-` runs is the
composition of the source's `\s+ → "-"` and `-+ → "-"` substitutions.) -/
def slugify_heading (text : String) : String :=
  let s1 := (stripL text.data).map Char.toLower
  let s2 := s1.filter (fun c => wordChar c || wsC c || c = '-')
  let s3 := s2.map (fun c => if wsC c then '-' else c)
  let s4 := hyphenCollapseGo false s3
  ⟨((s4.dropWhile (· = '-')).reverse.dropWhile (· = '-')).reverse⟩

/-- Decimal digits of `n`, most significant first, computed with explicit
fuel so that the definition is structural. -/
def decDigitsGo : Nat → Nat → List Nat
  | 0, n => [n % 10]
  | fuel + 1, n => if n < 10 then [n] else decDigitsGo fuel (n / 10) ++ [n % 10]

def natDecL (n : Nat) : List Nat := decDigitsGo n n

/-- Decimal rendering of a natural number, as Python's `str`/f-strings. -/
def natDecStr (n : Nat) : String := ⟨(natDecL n).map Nat.digitChar⟩

/-- `slug_id = base_slug if count == 0 else f"{base_slug}-{count}"`. -/
def mkSlugId (base : String) (count : Nat) : String :=
  if count = 0 then base else base ++ "-" ++ natDecStr count

def countGet (counts : List (String × Nat)) (k : String) : Nat :=
  match counts with
  | [] => 0
  | (k', v) :: rest => if k' = k then v else countGet rest k

def countSet (counts : List (String × Nat)) (k : String) (v : Nat) : List (String × Nat) :=
  match counts with
  | [] => [(k, v)]
  | (k', v') :: rest => if k' = k then (k', v) :: rest else (k', v') :: countSet rest k v

/-- Normalized heading text values treated as a Table of Contents marker. -/
def tocName (s : String) : Bool := s = "table of contents" || s = "table of content"

/-- `demote_headings`, threading the `in_code_block` flag, the per-base slug
counters and the first heading text. Returns the rewritten lines, the TOC
entries `(text, slug)` in document order, and the first heading text. -/
def demoteGo (inCode : Bool) (slugCounts : List (String × Nat))
    (firstHeading : Option String) :
    List String → List String × List (String × String) × Option String
  | [] => ([], [], firstHeading)
  | line :: rest =>
    let stripped := pyStrip line
    if pyStartsWith stripped "```" || pyStartsWith stripped "~~~" then
      let r := demoteGo (!inCode) slugCounts firstHeading rest
      (line :: r.1, r.2)
    else if inCode then
      let r := demoteGo inCode slugCounts firstHeading rest
      (line :: r.1, r.2)
    else
      match headingMatch line with
      | none =>
        let r := demoteGo inCode slugCounts firstHeading rest
        (line :: r.1, r.2)
      | some (lvl, rawText) =>
        let text := pyStrip rawText
        let normalized := pyRstripColon (pyLower text)
        let firstHeading' :=
          if firstHeading = none ∧ ¬tocName normalized then some text else firstHeading
        let newLevel := if lvl = 1 then 2 else lvl
        if newLevel = 2 ∧ ¬tocName normalized then
          let baseSlug := if slugify_heading text = "" then "section" else slugify_heading text
          let count := countGet slugCounts baseSlug
          let slugId := mkSlugId baseSlug count
          let slugCounts' := countSet slugCounts baseSlug (count + 1)
          let newLine :=
            pyRstrip ⟨List.replicate newLevel '#' ++ ' ' :: text.data⟩ ++ " \x7b#" ++ slugId ++ "\x7d"
          let r := demoteGo inCode slugCounts' firstHeading' rest
          (newLine :: r.1, (text, slugId) :: r.2.1, r.2.2)
        else
          let newLine := pyRstrip ⟨List.replicate newLevel '#' ++ ' ' :: text.data⟩
          let r := demoteGo inCode slugCounts firstHeading' rest
          (newLine :: r.1, r.2)

def demote_headings (lines : List String) :
    List String × List (String × String) × Option String :=
  demoteGo false [] none lines

/-- `build_toc_lines`. -/
def build_toc_lines (entries : List (String × String)) : List String :=
  match entries with
  | [] => []
  | _ =>
    "## Table of Contents" :: "" ::
      entries.map (fun e => "- [" ++ e.1 ++ "](#" ++ e.2 ++ ")") ++ [""]

/-- Heading line whose level is 2 and whose normalized text names the TOC. -/
def isTocHeadingLine (line : String) : Bool :=
  match headingMatch line with
  | some (2, txt) => tocName (pyRstripColon (pyLower (pyStrip txt)))
  | _ => false

/-- Scan for the first TOC heading; return the lines before it and the tail
from the next heading line (of any level) after it. -/
def replaceTocGo : List String → Option (List String × List String)
  | [] => none
  | l :: rest =>
    if isTocHeadingLine l then some ([], rest.dropWhile (fun x => (headingMatch x).isNone))
    else
      match replaceTocGo rest with
      | some (a, r) => some (l :: a, r)
      | none => none

/-- `replace_existing_toc`. -/
def replace_existing_toc (lines toc_lines : List String) : List String × Bool :=
  match toc_lines with
  | [] => (lines, false)
  | _ =>
    match replaceTocGo lines with
    | some (a, r) => (a ++ toc_lines ++ r, true)
    | none => (lines, false)

/-! ### epub_markdown_cleanup: front matter codec -/

/-- Front matter values: a scalar string or a list of item strings. -/
inductive YamlValue where
  | scalar : String → YamlValue
  | items : List String → YamlValue
deriving DecidableEq, Repr

/-- Insertion-ordered dictionary, as Python's `dict`. -/
abbrev FmDict := List (String × YamlValue)

def dictGet (m : FmDict) (k : String) : Option YamlValue :=
  match m with
  | [] => none
  | (k', v) :: rest => if k' = k then some v else dictGet rest k

/-- Python `d[k] = v`: update in place, or append when the key is new. -/
def dictSet (m : FmDict) (k : String) (v : YamlValue) : FmDict :=
  match m with
  | [] => [(k, v)]
  | (k', v') :: rest => if k' = k then (k', v) :: rest else (k', v') :: dictSet rest k v

/-- Python `d.pop(k, None)`. -/
def dictPop (m : FmDict) (k : String) : FmDict := m.filter (fun p => p.1 ≠ k)

def dictKeys (m : FmDict) : List String := m.map Prod.fst

def addIfAbsent (l : List String) (k : String) : List String :=
  if l.contains k then l else l ++ [k]

/-- `needs_quotes`. -/
def needs_quotes (value : String) : Bool :=
  if value = "" || value ≠ pyStrip value then true
  else if pyHasChar value ':' || pyHasChar value '#' || pyHasChar value '"' ||
      pyHasChar value '\'' then true
  else if value.data.any wsC && (pySubstr [':', ':'] value.data || pyStartsWith value "http") then
    true
  else if pyLower value = "true" || pyLower value = "false" || pyLower value = "null" ||
      pyLower value = "~" then true
  else false

/-- `text.replace("\"", "\\\"")`. -/
def escapeDq (s : String) : String :=
  ⟨(s.data.map (fun c => if c = '"' then ['\\', '"'] else [c])).flatten⟩

/-- `format_scalar_value` (`none` is Python's `None`, rendered as `""`). -/
def format_scalar_value (value : Option String) (force_quotes : Bool) : String :=
  let text := match value with | none => "" | some s => s
  if force_quotes || needs_quotes text then "\"" ++ escapeDq text ++ "\"" else text

/-- Lines serialized for one key of the front matter. -/
def renderFmEntry (metadata : FmDict) (quoted : List String) (key : String) : List String :=
  match dictGet metadata key with
  | some (.items xs) =>
    (key ++ ":") :: xs.map (fun item => "  - " ++ format_scalar_value (some item) false)
  | some (.scalar s) => [key ++ ": " ++ format_scalar_value (some s) (quoted.contains key)]
  | none => [key ++ ": " ++ format_scalar_value none (quoted.contains key)]

/-- Key loop of `serialize_front_matter` with its `seen` set. -/
def serFmGo (metadata : FmDict) (quoted : List String) (seen : List String) :
    List String → List String
  | [] => []
  | key :: rest =>
    if seen.contains key then serFmGo metadata quoted seen rest
    else renderFmEntry metadata quoted key ++ serFmGo metadata quoted (key :: seen) rest

/-- `serialize_front_matter`. -/
def serialize_front_matter (metadata : FmDict) (order : List String)
    (quoted : List String) : List String :=
  "---" ::
    serFmGo metadata quoted []
      (order ++ (dictKeys metadata).filter (fun k => !order.contains k)) ++ ["---"]

/-- Parser state of `parse_front_matter_block`. -/
structure FmState where
  metadata : FmDict
  order : List String
  quoted : List String
  currentKey : Option String
deriving DecidableEq, Repr

/-- One line of the `parse_front_matter_block` loop; `none` is the `return
None` of the source. -/
def parseFmLine (st : FmState) (raw : String) : Option FmState :=
  let stripped := pyStrip raw
  if stripped = "" || pyStartsWith stripped "#" then some st
  else if pyStartsWith stripped "- " then
    match st.currentKey with
    | some k =>
      match dictGet st.metadata k with
      | some (.items xs) =>
        some { st with
          metadata := dictSet st.metadata k (.items (xs ++ [pyStrip ⟨stripped.data.drop 2⟩])) }
      | _ => none
    | none => none
  else if pyHasChar raw ':' then
    let key := pyStrip ⟨raw.data.takeWhile (· ≠ ':')⟩
    let valuePart : String := ⟨(raw.data.dropWhile (· ≠ ':')).drop 1⟩
    if key = "" then none
    else
      let value := pyStrip valuePart
      let order' := if st.order.contains key then st.order else st.order ++ [key]
      if value = "" then
        some { metadata := dictSet st.metadata key (.items []), order := order',
               quoted := st.quoted, currentKey := some key }
      else if (pyStartsWith value "\"" && pyEndsWith value "\"") ||
          (pyStartsWith value "'" && pyEndsWith value "'") then
        some { metadata := dictSet st.metadata key (.scalar ⟨(value.data.drop 1).dropLast⟩),
               order := order', quoted := addIfAbsent st.quoted key, currentKey := some key }
      else
        some { metadata := dictSet st.metadata key (.scalar value), order := order',
               quoted := st.quoted, currentKey := some key }
  else none

def parseFmLines (st : FmState) : List String → Option FmState
  | [] => some st
  | l :: rest =>
    match parseFmLine st l with
    | some st' => parseFmLines st' rest
    | none => none

/-- `parse_front_matter_block`. -/
def parse_front_matter_block (lines : List String) :
    Option (FmDict × List String × List String) :=
  match lines with
  | [] => none
  | l0 :: rest =>
    if pyStrip l0 ≠ "---" then none
    else
      match (l0 :: rest).getLast? with
      | some lN =>
        if pyStrip lN ≠ "---" then none
        else
          match parseFmLines ⟨[], [], [], none⟩ rest.dropLast with
          | some st => some (st.metadata, st.order, st.quoted)
          | none => none
      | none => none

/-! ### epub_markdown_cleanup: artifact stripping passes -/

/-- Strip a case-insensitive literal (given lowercase) from the front. -/
def ciPrefixStrip : List Char → List Char → Option (List Char)
  | [], l => some l
  | _ :: _, [] => none
  | a :: ps, c :: cs => if c.toLower = a then ciPrefixStrip ps cs else none

/-- Shared shape of the fence-aware line loops: toggle on ``` / ~~~ (after
`lstrip`), leave fenced lines alone, rewrite the rest with `f`. -/
def fenceMapGo (f : String → String) (inCode : Bool) : List String → List String
  | [] => []
  | line :: rest =>
    if fenceLine line then line :: fenceMapGo f (!inCode) rest
    else if inCode then line :: fenceMapGo f inCode rest
    else f line :: fenceMapGo f inCode rest

/-- `BULLETED_SQUARE_PATTERN = ^(\s*)\[•\s*\]\s*(.+)$`; returns the
whitespace prefix and the text after the marker (whose `strip` is the
replacement's `group("text").strip()`). -/
def bulletSquareMatch (l : List Char) : Option (List Char × List Char) :=
  let pre := l.takeWhile wsC
  match l.drop pre.length with
  | '[' :: '•' :: rest =>
    let w := rest.takeWhile wsC
    (match rest.drop w.length with
     | ']' :: r => if r.isEmpty then none else some (pre, r)
     | _ => none)
  | _ => none

/-- `BULLET_ONLY_PATTERN = ^(\s*)•\s+(.+)$`. -/
def bulletOnlyMatch (l : List Char) : Option (List Char × List Char) :=
  let pre := l.takeWhile wsC
  match l.drop pre.length with
  | '•' :: rest =>
    let w := rest.takeWhile wsC
    if !w.isEmpty && decide (2 ≤ rest.length) then some (pre, rest) else none
  | _ => none

/-- `SQUARE_BULLET_MARKER_PATTERN.sub(" - ", line)`. -/
def squareMarkerSubGo : Nat → List Char → List Char
  | 0, l => l
  | _ + 1, [] => []
  | fuel + 1, '[' :: '•' :: rest =>
    (let w := rest.takeWhile wsC
     match rest.drop w.length with
     | ']' :: r => ' ' :: '-' :: ' ' :: squareMarkerSubGo fuel r
     | _ => '[' :: squareMarkerSubGo fuel ('•' :: rest))
  | fuel + 1, c :: rest => c :: squareMarkerSubGo fuel rest

/-- `normalize_square_bullets`. -/
def normalize_square_bullets (lines : List String) : List String :=
  lines.map fun line =>
    match bulletSquareMatch line.data with
    | some (pre, r) => ⟨pre⟩ ++ "- " ++ pyStrip ⟨r⟩
    | none =>
      match bulletOnlyMatch line.data with
      | some (pre, r) => ⟨pre⟩ ++ "- " ++ pyStrip ⟨r⟩
      | none => ⟨squareMarkerSubGo line.data.length line.data⟩

/-- `PART_LINK_PATTERN.sub`: `\[([^\]]+)\]\(#part[^\)]+\)` → label. -/
def partLinkSubGo : Nat → List Char → List Char
  | 0, l => l
  | _ + 1, [] => []
  | fuel + 1, '[' :: rest =>
    (let lbl := rest.takeWhile (· ≠ ']')
     if lbl.isEmpty then '[' :: partLinkSubGo fuel rest
     else
       match rest.drop lbl.length with
       | ']' :: '(' :: '#' :: t1 :: t2 :: t3 :: t4 :: r2 =>
         if t1.toLower = 'p' && t2.toLower = 'a' && t3.toLower = 'r' && t4.toLower = 't' then
           let tgt := r2.takeWhile (· ≠ ')')
           if tgt.isEmpty then '[' :: partLinkSubGo fuel rest
           else
             match r2.drop tgt.length with
             | ')' :: r3 => lbl ++ partLinkSubGo fuel r3
             | _ => '[' :: partLinkSubGo fuel rest
         else '[' :: partLinkSubGo fuel rest
       | _ => '[' :: partLinkSubGo fuel rest)
  | fuel + 1, c :: rest => c :: partLinkSubGo fuel rest

/-- `strip_part_links`. -/
def strip_part_links (lines : List String) : List String :=
  fenceMapGo (fun line => ⟨partLinkSubGo line.data.length line.data⟩) false lines

/-- `INLINE_EM_DASH_PATTERN.sub`: `(?<!-)(---)(?!-)` → `—`; `prev` is the
character before the scan position in the original text. -/
def emDashSubGo : Nat → Option Char → List Char → List Char
  | 0, _, l => l
  | _ + 1, _, [] => []
  | fuel + 1, prev, '-' :: '-' :: '-' :: rest =>
    if prev != some '-' &&
        (match rest with | '-' :: _ => false | _ => true : Bool) then
      '—' :: emDashSubGo fuel (some '-') rest
    else '-' :: emDashSubGo fuel (some '-') ('-' :: '-' :: rest)
  | fuel + 1, _, c :: rest => c :: emDashSubGo fuel (some c) rest

/-- `convert_inline_em_dashes` (all-dash lines are left alone). -/
def convert_inline_em_dashes (lines : List String) : List String :=
  fenceMapGo
    (fun line =>
      let sf := pyStrip line
      if sf ≠ "" ∧ sf.data.all (· = '-') then line
      else ⟨emDashSubGo line.data.length none line.data⟩)
    false lines

/-- `NON_LINK_BRACKET_PATTERN.sub`: `\[([^\]]+)\](?!\s*(\(|:))` → text. -/
def nonLinkBracketSubGo : Nat → List Char → List Char
  | 0, l => l
  | _ + 1, [] => []
  | fuel + 1, '[' :: rest =>
    (let lbl := rest.takeWhile (· ≠ ']')
     if lbl.isEmpty then '[' :: nonLinkBracketSubGo fuel rest
     else
       match rest.drop lbl.length with
       | ']' :: r2 =>
         (match r2.dropWhile wsC with
          | '(' :: _ => '[' :: nonLinkBracketSubGo fuel rest
          | ':' :: _ => '[' :: nonLinkBracketSubGo fuel rest
          | _ => lbl ++ nonLinkBracketSubGo fuel r2)
       | _ => '[' :: nonLinkBracketSubGo fuel rest)
  | fuel + 1, c :: rest => c :: nonLinkBracketSubGo fuel rest

/-- `strip_non_link_brackets`. -/
def strip_non_link_brackets (lines : List String) : List String :=
  fenceMapGo (fun line => ⟨nonLinkBracketSubGo line.data.length line.data⟩) false lines

/-- `EMPTY_BRACKETS_PATTERN.sub("", content)`: remove `\[\s+\]`. -/
def emptyBracketsSubGo : Nat → List Char → List Char
  | 0, l => l
  | _ + 1, [] => []
  | fuel + 1, '[' :: rest =>
    (let w := rest.takeWhile wsC
     if w.isEmpty then '[' :: emptyBracketsSubGo fuel rest
     else
       match rest.drop w.length with
       | ']' :: r => emptyBracketsSubGo fuel r
       | _ => '[' :: emptyBracketsSubGo fuel rest)
  | fuel + 1, c :: rest => c :: emptyBracketsSubGo fuel rest

/-- `re.sub(r" {2,}", " ", content)`; `pending` counts pending spaces. -/
def spaceCollapseGo (pending : Nat) : List Char → List Char
  | [] => List.replicate (if 2 ≤ pending then 1 else pending) ' '
  | c :: rest =>
    if c = ' ' then spaceCollapseGo (pending + 1) rest
    else
      List.replicate (if 2 ≤ pending then 1 else pending) ' ' ++ c :: spaceCollapseGo 0 rest

/-- `remove_empty_brackets`. -/
def remove_empty_brackets (lines : List String) : List String :=
  lines.map fun line =>
    let leading := line.data.takeWhile (· = ' ')
    let content := line.data.drop leading.length
    if content.isEmpty then line
    else ⟨leading ++ spaceCollapseGo 0 (emptyBracketsSubGo content.length content)⟩

/-- `EMPTY_STYLE_BLOCK_PATTERN = ^:::\s*\{[^}]*\}\s*$`. -/
def emptyStyleBlockMatch (l : List Char) : Bool :=
  match l with
  | ':' :: ':' :: ':' :: rest =>
    (match rest.dropWhile wsC with
     | '{' :: r2 =>
       let body := r2.takeWhile (· ≠ '}')
       (match r2.drop body.length with
        | '}' :: r3 => r3.all wsC
        | _ => false)
     | _ => false)
  | _ => false

/-- `BARE_CALIBRE_PATTERN = ^:::+\s*$`. -/
def bareCalibreMatch : List Char → Bool
  | ':' :: ':' :: ':' :: rest => (rest.dropWhile (· = ':')).all wsC
  | _ => false

/-- `CALIBRE_ONLY_PATTERN = ^:::+\s+calibre[^\s]*\s*$` (case-insensitive). -/
def calibreOnlyMatch : List Char → Bool
  | ':' :: ':' :: ':' :: rest =>
    let r1 := rest.dropWhile (· = ':')
    let w := r1.takeWhile wsC
    !w.isEmpty &&
      (match ciPrefixStrip "calibre".data (r1.drop w.length) with
       | some r2 => (r2.dropWhile (fun c => !wsC c)).all wsC
       | none => false)
  | _ => false

/-- `BLOCK_ONLY_PATTERN = ^:::+\s+block_[^\s]*\s*$` (case-insensitive). -/
def blockOnlyMatch : List Char → Bool
  | ':' :: ':' :: ':' :: rest =>
    let r1 := rest.dropWhile (· = ':')
    let w := r1.takeWhile wsC
    !w.isEmpty &&
      (match ciPrefixStrip "block_".data (r1.drop w.length) with
       | some r2 => (r2.dropWhile (fun c => !wsC c)).all wsC
       | none => false)
  | _ => false

/-- `TILDE_LINE_PATTERN = ^\s*~+\s*$`. -/
def tildeLineMatch (l : List Char) : Bool :=
  match l.dropWhile wsC with
  | '~' :: rest => (rest.dropWhile (· = '~')).all wsC
  | _ => false

/-- `CBJ_BLOCK_PATTERN = ^\s*:::\s+cbj_[^\s]+$` (case-insensitive). -/
def cbjBlockMatch (l : List Char) : Bool :=
  match l.dropWhile wsC with
  | ':' :: ':' :: ':' :: rest =>
    let w := rest.takeWhile wsC
    !w.isEmpty &&
      (match ciPrefixStrip "cbj_".data (rest.drop w.length) with
       | some r2 => !r2.isEmpty && r2.all (fun c => !wsC c)
       | none => false)
  | _ => false

/-- `BACKSLASH_ONLY_PATTERN = ^\s*\\\s*$`. -/
def backslashOnlyMatch (l : List Char) : Bool :=
  match l.dropWhile wsC with
  | '\\' :: rest => rest.all wsC
  | _ => false

/-- `STYLE_LINE_PATTERN = ^\s*\{\s*style\s*=\s*"[^"]*"\s*\}\s*$` (ci). -/
def styleLineMatch (l : List Char) : Bool :=
  match l.dropWhile wsC with
  | '{' :: r1 =>
    (match ciPrefixStrip "style".data (r1.dropWhile wsC) with
     | some r3 =>
       (match r3.dropWhile wsC with
        | '=' :: r5 =>
          (match r5.dropWhile wsC with
           | '"' :: r7 =>
             let body := r7.takeWhile (· ≠ '"')
             (match r7.drop body.length with
              | '"' :: r8 =>
                (match r8.dropWhile wsC with
                 | '}' :: r9 => r9.all wsC
                 | _ => false)
              | _ => false)
           | _ => false)
        | _ => false)
     | none => false)
  | _ => false

/-- `COLON_BLOCK_PATTERN = ^:::+\s*.*$`. -/
def colonBlockMatch : List Char → Bool
  | ':' :: ':' :: ':' :: _ => true
  | _ => false

/-- Disjunction of the vestigial-block patterns, in source order. -/
def rvbDrop (stripped : List Char) : Bool :=
  emptyStyleBlockMatch stripped || bareCalibreMatch stripped || calibreOnlyMatch stripped ||
    blockOnlyMatch stripped || tildeLineMatch stripped || cbjBlockMatch stripped ||
    backslashOnlyMatch stripped || styleLineMatch stripped || colonBlockMatch stripped

/-- `remove_vestigial_blocks` with its `in_code_block` flag. -/
def rvbGo (inCode : Bool) : List String → List String
  | [] => []
  | line :: rest =>
    if fenceLine line then line :: rvbGo (!inCode) rest
    else if inCode then line :: rvbGo inCode rest
    else
      let stripped := pyStrip line
      if stripped = "" then line :: rvbGo inCode rest
      else if rvbDrop stripped.data then rvbGo inCode rest
      else line :: rvbGo inCode rest

def remove_vestigial_blocks (lines : List String) : List String := rvbGo false lines

/-- `convert_dash_rules` (`DASH_RULE_PATTERN = ^-{5,}$` on the strip). -/
def cdrGo (inCode : Bool) : List String → List String
  | [] => []
  | line :: rest =>
    if fenceLine line then line :: cdrGo (!inCode) rest
    else if inCode then line :: cdrGo inCode rest
    else
      let s := pyStrip line
      if decide (5 ≤ s.data.length) && s.data.all (· = '-') then "<hr>" :: cdrGo inCode rest
      else line :: cdrGo inCode rest

def convert_dash_rules (lines : List String) : List String := cdrGo false lines

/-- `SVG_OPEN_PATTERN = <svg\b` (ci) at the current position. -/
def svgOpenAt : List Char → Bool
  | '<' :: s :: v :: g :: rest =>
    s.toLower = 's' && v.toLower = 'v' && g.toLower = 'g' &&
      (match rest with | c :: _ => !wordChar c | [] => true)
  | _ => false

def containsSvgOpen : List Char → Bool
  | [] => false
  | c :: rest => svgOpenAt (c :: rest) || containsSvgOpen rest

/-- `SVG_CLOSE_PATTERN = </svg>` (ci) at the current position. -/
def svgCloseAt : List Char → Bool
  | '<' :: '/' :: s :: v :: g :: '>' :: _ =>
    s.toLower = 's' && v.toLower = 'v' && g.toLower = 'g'
  | _ => false

def containsSvgClose : List Char → Bool
  | [] => false
  | c :: rest => svgCloseAt (c :: rest) || containsSvgClose rest

/-- `remove_svg_blocks` with its `in_svg` flag. -/
def rsbGo (inSvg : Bool) : List String → List String
  | [] => []
  | line :: rest =>
    if !inSvg && containsSvgOpen line.data then rsbGo true rest
    else if inSvg then
      if containsSvgClose line.data then rsbGo false rest else rsbGo true rest
    else line :: rsbGo false rest

def remove_svg_blocks (lines : List String) : List String := rsbGo false lines

/-- `MALFORMED_LINK_PATTERN.sub`:
`\[\[\]\[(text)\]\((#primary)\)\]\((#secondary)\)` → `[text.strip()](primary)`. -/
def malformedLinkSubGo : Nat → List Char → List Char
  | 0, l => l
  | _ + 1, [] => []
  | fuel + 1, '[' :: '[' :: ']' :: '[' :: rest =>
    (let txt := rest.takeWhile (· ≠ ']')
     let bail := fun _ : Unit => '[' :: malformedLinkSubGo fuel ('[' :: ']' :: '[' :: rest)
     if txt.isEmpty then bail ()
     else
       match rest.drop txt.length with
       | ']' :: '(' :: '#' :: r2 =>
         let tgt := r2.takeWhile (· ≠ ')')
         if tgt.isEmpty then bail ()
         else
           match r2.drop tgt.length with
           | ')' :: ']' :: '(' :: '#' :: r3 =>
             let tgt2 := r3.takeWhile (· ≠ ')')
             if tgt2.isEmpty then bail ()
             else
               match r3.drop tgt2.length with
               | ')' :: r4 =>
                 '[' :: (stripL txt ++ (']' :: '(' :: '#' :: (tgt ++ ')' :: malformedLinkSubGo fuel r4)))
               | _ => bail ()
           | _ => bail ()
       | _ => bail ())
  | fuel + 1, c :: rest => c :: malformedLinkSubGo fuel rest

def fix_malformed_links (lines : List String) : List String :=
  lines.map fun line => ⟨malformedLinkSubGo line.data.length line.data⟩

/-- `EMPTY_LABEL_LINK_PATTERN.sub`: `\[\]\s*([^\]]+?)(?=\]\()` →
`[group.strip()]` (the lookahead is not consumed). -/
def emptyLabelSubGo : Nat → List Char → List Char
  | 0, l => l
  | _ + 1, [] => []
  | fuel + 1, '[' :: ']' :: rest =>
    (let body := rest.takeWhile (· ≠ ']')
     if body.isEmpty then '[' :: emptyLabelSubGo fuel (']' :: rest)
     else
       match rest.drop body.length with
       | ']' :: '(' :: r2 =>
         ('[' :: (stripL body ++ [']'])) ++ emptyLabelSubGo fuel (']' :: '(' :: r2)
       | _ => '[' :: emptyLabelSubGo fuel (']' :: rest))
  | fuel + 1, c :: rest => c :: emptyLabelSubGo fuel rest

def remove_empty_label_links (lines : List String) : List String :=
  lines.map fun line => ⟨emptyLabelSubGo line.data.length line.data⟩

/-- One `(?:images|OEBPS)/` repetition (case-insensitive). -/
def imgSegOnce (l : List Char) : Option (List Char) :=
  match ciPrefixStrip "images/".data l with
  | some r => some r
  | none => ciPrefixStrip "oebps/".data l

/-- Greedy further repetitions of `(?:images|OEBPS)/`. -/
def imgSegMany : Nat → List Char → List Char
  | 0, l => l
  | fuel + 1, l =>
    match imgSegOnce l with
    | some r => imgSegMany fuel r
    | none => l

/-- `REDUNDANT_IMAGE_SEGMENT_PATTERN.sub("images/", path)`:
`images/(?:(?:images|OEBPS)/)+` (ci) → `images/`. -/
def redundantSegSubGo : Nat → List Char → List Char
  | 0, l => l
  | _ + 1, [] => []
  | fuel + 1, c :: rest =>
    (match ciPrefixStrip "images/".data (c :: rest) with
     | some r1 =>
       (match imgSegOnce r1 with
        | some r2 => "images/".data ++ redundantSegSubGo fuel (imgSegMany fuel r2)
        | none => c :: redundantSegSubGo fuel rest)
     | none => c :: redundantSegSubGo fuel rest)

/-- Count leading exact `OEBPS/` repetitions. -/
def oebpsRepsCount : Nat → List Char → Nat × List Char
  | 0, l => (0, l)
  | fuel + 1, l =>
    if "OEBPS/".data.isPrefixOf l then
      let (k, r) := oebpsRepsCount fuel (l.drop 6)
      (k + 1, r)
    else (0, l)

/-- `OEBPS_IMAGE_PATTERN.sub(r"images/\1", path)`: anchored
`^images/(?:OEBPS/)+(.+)$` (exact case); the `+` gives one repetition back
when `.+` would otherwise be empty. -/
def oebpsImageSub (l : List Char) : List Char :=
  if "images/".data.isPrefixOf l then
    let (k, r) := oebpsRepsCount l.length (l.drop 7)
    if k = 0 then l
    else if !r.isEmpty then "images/".data ++ r
    else if 2 ≤ k then "images/".data ++ "OEBPS/".data
    else l
  else l

/-- `MARKDOWN_IMAGE_PATTERN` scanner of `rewrite_markdown_image_paths`:
`(!\[[^\]]*\]\()([^\)]+)(\))` with the path group rewritten. -/
def mdImageSubGo : Nat → List Char → List Char
  | 0, l => l
  | _ + 1, [] => []
  | fuel + 1, '!' :: '[' :: rest =>
    (let alt := rest.takeWhile (· ≠ ']')
     match rest.drop alt.length with
     | ']' :: '(' :: r2 =>
       let path := r2.takeWhile (· ≠ ')')
       if path.isEmpty then '!' :: mdImageSubGo fuel ('[' :: rest)
       else
         (match r2.drop path.length with
          | ')' :: r3 =>
            let p2 := oebpsImageSub (redundantSegSubGo path.length path)
            '!' :: '[' :: (alt ++ (']' :: '(' :: (p2 ++ ')' :: mdImageSubGo fuel r3)))
          | _ => '!' :: mdImageSubGo fuel ('[' :: rest))
     | _ => '!' :: mdImageSubGo fuel ('[' :: rest))
  | fuel + 1, c :: rest => c :: mdImageSubGo fuel rest

def rewrite_markdown_image_paths (lines : List String) : List String :=
  lines.map fun line => ⟨mdImageSubGo line.data.length line.data⟩

/-- `bold_uppercase_lines` (its fence check uses `lstrip(" ")`). -/
def bulGo (inCode : Bool) : List String → List String
  | [] => []
  | line :: rest =>
    let sl := pyLstripSpaces line
    if pyStartsWith sl "```" || pyStartsWith sl "~~~" then line :: bulGo (!inCode) rest
    else if inCode then line :: bulGo inCode rest
    else
      let stripped := pyStrip line
      if stripped = "" then line :: bulGo inCode rest
      else if pyStartsWith stripped "#" || pyStartsWith stripped "-" ||
          pyStartsWith stripped "*" || pyStartsWith stripped "+" ||
          pyStartsWith stripped ">" then line :: bulGo inCode rest
      else if pyStartsWith stripped "**" && pyEndsWith stripped "**" &&
          decide (4 < stripped.data.length) then line :: bulGo inCode rest
      else if pyStartsWith stripped "<" && pyEndsWith stripped ">" then line :: bulGo inCode rest
      else if pyStartsWith stripped "`" && pyEndsWith stripped "`" then line :: bulGo inCode rest
      else
        let letters := stripped.data.filter Char.isAlpha
        if letters.isEmpty then line :: bulGo inCode rest
        else if letters.any Char.isLower then line :: bulGo inCode rest
        else
          (⟨line.data.takeWhile (· = ' ')⟩ ++ "**" ++ stripped ++ "**") :: bulGo inCode rest

def bold_uppercase_lines (lines : List String) : List String := bulGo false lines

/-- `HYPHEN_BULLET_PATTERN = ^\s*-\s+\S`. -/
def hyphenBulletMatch (line : String) : Bool :=
  match line.data.dropWhile wsC with
  | '-' :: rest =>
    let w := rest.takeWhile wsC
    !w.isEmpty && (match rest.drop w.length with | c :: _ => !wsC c | [] => false)
  | _ => false

/-- `ensure_blank_line_after_hyphen_lists` (looks one line ahead). -/
def eblGo (inCode : Bool) : List String → List String
  | [] => []
  | line :: rest =>
    if fenceLine line then line :: eblGo (!inCode) rest
    else if inCode then line :: eblGo inCode rest
    else if !hyphenBulletMatch line then line :: eblGo inCode rest
    else
      match rest with
      | [] => if pyStrip line ≠ "" then [line, ""] else [line]
      | nxt :: _ =>
        if pyStrip nxt = "" then line :: eblGo inCode rest
        else if hyphenBulletMatch nxt then line :: eblGo inCode rest
        else if pyStrip line ≠ "" then line :: "" :: eblGo inCode rest
        else line :: eblGo inCode rest

def ensure_blank_line_after_hyphen_lists (lines : List String) : List String :=
  eblGo false lines

/-- `REDUNDANT_ESCAPE_PATTERN.sub(r"\1", line)`: `\\([.!?,:;'])` → `\1`. -/
def redundantEscapeSubGo : Nat → List Char → List Char
  | 0, l => l
  | _ + 1, [] => []
  | fuel + 1, '\\' :: c :: rest =>
    if c = '.' || c = '!' || c = '?' || c = ',' || c = ':' || c = ';' || c = '\'' then
      c :: redundantEscapeSubGo fuel rest
    else '\\' :: redundantEscapeSubGo fuel (c :: rest)
  | fuel + 1, c :: rest => c :: redundantEscapeSubGo fuel rest

def strip_redundant_escapes (lines : List String) : List String :=
  fenceMapGo (fun line => ⟨redundantEscapeSubGo line.data.length line.data⟩) false lines

/-! ### epub_markdown_cleanup: title and metadata inference -/

/-- Leftmost match of `re.split(r"\s*[–—-]\s+", result, 1)`: returns the text
before the first `ws* dash ws+` separator, or `none`. -/
def dashSplitGo : Nat → List Char → List Char → Option (List Char)
  | 0, _, _ => none
  | _ + 1, _, [] => none
  | fuel + 1, acc, c :: rest =>
    let l := c :: rest
    let w := l.takeWhile wsC
    match l.drop w.length with
    | d :: r2 =>
      if (d = '–' || d = '—' || d = '-') &&
          (match r2 with | x :: _ => wsC x | [] => false : Bool) then
        some acc.reverse
      else dashSplitGo fuel (c :: acc) rest
    | [] => dashSplitGo fuel (c :: acc) rest

/-- `compute_title_short`. -/
def compute_title_short (title : String) : String :=
  if title = "" then ""
  else
    let result := pyStrip title
    let result :=
      if pyHasChar result ':' then pyStrip ⟨result.data.takeWhile (· ≠ ':')⟩ else result
    match dashSplitGo (result.data.length + 1) [] result.data with
    | some before => pyStrip ⟨before⟩
    | none => result

/-- `trim_title_short`. -/
def trim_title_short (value : String) : String :=
  if value = "" then "" else compute_title_short value

/-- Python truthiness of `metadata.get("title_short")`. -/
def titleShortMissing (m : FmDict) : Bool :=
  match dictGet m "title_short" with
  | none => true
  | some (.scalar s) => s = ""
  | some (.items xs) => xs.isEmpty

/-- Drop one metadata key: `pop`, `order.remove`, `quoted.discard`. -/
def dropMetaKey (m : FmDict) (o q : List String) (k : String) :
    FmDict × List String × List String :=
  if (dictGet m k).isSome then (dictPop m k, o.erase k, q.filter (· ≠ k))
  else (m, o, q)

/-- The metadata enrichment block of `adjust_headings_and_build_toc`
(identifier/ISBN reconciliation and title fields). -/
def enrichMetadata (m0 : FmDict) (o0 q0 : List String) (bodyText : String)
    (firstHeadingText : Option String) : FmDict × List String × List String :=
  let (m, o, q) := dropMetaKey m0 o0 q0 "contributor"
  let (m, o, q) := dropMetaKey m o q "description"
  let identifiersRaw := dictGet m "identifier"
  let identifierCandidates : List String :=
    match identifiersRaw with
    | some (.items xs) => xs
    | some (.scalar s) => [s]
    | none => []
  let isbnValue :=
    match extract_isbn bodyText identifierCandidates with
    | some v => some v
    | none =>
      match dictGet m "isbn" with
      | some (.scalar s) => normalize_isbn s
      | _ => none
  let (m, q) :=
    match isbnValue with
    | none => (m, q)
    | some v =>
      let m := dictSet m "isbn" (.scalar v)
      let q := addIfAbsent q "isbn"
      let m :=
        match identifiersRaw with
        | some (.items xs) =>
          if xs.contains v || xs.contains ("ISBN " ++ v) then dictSet m "identifier" (.items xs)
          else dictSet m "identifier" (.items (xs ++ ["ISBN " ++ v]))
        | some (.scalar s) =>
          if s ≠ "" then
            if s ≠ v ∧ s ≠ "ISBN " ++ v then
              dictSet m "identifier" (.items [s, "ISBN " ++ v])
            else dictSet m "identifier" (.items [s])
          else dictSet m "identifier" (.items ["ISBN " ++ v])
        | none => dictSet m "identifier" (.items ["ISBN " ++ v])
      (m, q)
  let (m, titleSource) :=
    match dictGet m "title" with
    | some (.scalar t) =>
      if pyStrip t ≠ "" then (m, some (pyStrip t))
      else
        (match firstHeadingText with
         | some h => if h ≠ "" then (dictSet m "title" (.scalar h), some h) else (m, none)
         | none => (m, none))
    | _ =>
      (match firstHeadingText with
       | some h => if h ≠ "" then (dictSet m "title" (.scalar h), some h) else (m, none)
       | none => (m, none))
  let m :=
    match titleSource with
    | some t => if titleShortMissing m then dictSet m "title_short" (.scalar (compute_title_short t)) else m
    | none => m
  let (m, q) :=
    match dictGet m "title_short" with
    | some (.scalar ts) =>
      (dictSet m "title_short" (.scalar (trim_title_short ts)), addIfAbsent q "title_short")
    | _ => (m, q)
  (m, o, q)

/-! ### epub_markdown_cleanup: adjust_headings_and_build_toc -/

/-- Front matter capture loop (lines 749-768 of the source): scan for the
closing `---`; returns the captured tail of the block and the body. -/
def fmScan : List String → Option (List String × List String)
  | [] => none
  | l :: rest =>
    if pyStrip l = "---" then some ([l], rest)
    else
      match fmScan rest with
      | some (fm, body) => some (l :: fm, body)
      | none => none

/-- The body pass sequence of `adjust_headings_and_build_toc` (the
`flatten_image_paths` filesystem step does not touch the lines and is
omitted). -/
def bodyPasses (body : List String) : List String :=
  let b := normalize_square_bullets body
  let b := strip_part_links b
  let b := convert_inline_em_dashes b
  let b := strip_non_link_brackets b
  let b := remove_empty_brackets b
  let b := remove_vestigial_blocks b
  let b := convert_dash_rules b
  let b := remove_svg_blocks b
  let b := fix_malformed_links b
  let b := remove_empty_label_links b
  let b := rewrite_markdown_image_paths b
  let b := bold_uppercase_lines b
  let b := ensure_blank_line_after_hyphen_lists b
  strip_redundant_escapes b

/-- Body processing, TOC synthesis, metadata enrichment and final assembly
of `adjust_headings_and_build_toc`, given the captured front matter lines
(`[]` when absent), their parse, and the body lines. -/
def adjustAssemble (fmRaw : List String)
    (parsed : Option (FmDict × List String × List String))
    (bodyLines : List String) : List String :=
  let b := bodyPasses bodyLines
  let dres := demote_headings b
  let tocLines := build_toc_lines dres.2.1
  let rres := replace_existing_toc dres.1 tocLines
  let firstHeadingText := dres.2.2
  let bodyTextForIsbn := joinNl b
  let enriched :=
    match parsed with
    | some (m, o, q) => some (enrichMetadata m o q bodyTextForIsbn firstHeadingText)
    | none => none
  let fmOut :=
    match enriched with
    | some (m', o', q') => serialize_front_matter m' o' q'
    | none => fmRaw
  let titleFromFm :=
    match parsed with
    | some (m, _, _) =>
      (match dictGet m "title" with
       | some (.scalar t) => if pyStrip t ≠ "" then some (pyStrip t) else none
       | _ => none)
    | none => none
  let metadataTitle :=
    match enriched with
    | some (m', _, _) =>
      if m' ≠ [] then
        (match dictGet m' "title" with
         | some (.scalar t) => if pyStrip t ≠ "" then some (pyStrip t) else none
         | _ => none)
      else none
    | none => none
  let titleText :=
    match titleFromFm with
    | some t => some t
    | none =>
      match metadataTitle with
      | some t => some t
      | none =>
        match firstHeadingText with
        | some h => if h ≠ "" then some h else none
        | none => none
  let headPart :=
    match titleText with
    | some t =>
      [pyRstrip ("# " ++ t), ""] ++ (if tocLines ≠ [] ∧ ¬rres.2 then tocLines else [])
    | none => []
  let demoted :=
    if headPart ≠ [] ∧ headPart.getLast? = some "" then rres.1.dropWhile (· = "")
    else rres.1
  let finalBody := headPart ++ demoted
  match fmOut with
  | [] => finalBody
  | _ => fmOut ++ (if finalBody ≠ [] then [""] else []) ++ finalBody

/-- `adjust_headings_and_build_toc`, at the level of the split lines (the
source replaces non-breaking spaces in the whole text first, then splits;
joining the returned list with newlines gives its return value). -/
def adjust_headings_and_build_toc (lines0 : List String) : List String :=
  let lines := lines0.map nbspReplace
  match lines with
  | [] => []
  | l0 :: rest =>
    if pyStrip l0 = "---" then
      match fmScan rest with
      | some (fm, body) =>
        adjustAssemble (l0 :: fm) (parse_front_matter_block (l0 :: fm)) body
      | none => adjustAssemble (l0 :: rest) (parse_front_matter_block (l0 :: rest)) []
    else adjustAssemble [] none lines

/-! ### pdf_to_markdown: page region classification and repetition filtering -/

/-- One extracted text line with its vertical bounds (`y0` bottom, `y1` top);
the coordinate arithmetic of the source is generic in the ordered field, so
coordinates are embedded as integers. -/
structure PdfTextLine where
  text : String
  y0 : Int
  y1 : Int
deriving DecidableEq, Repr

structure PdfPage where
  height : Int
  lines : List PdfTextLine
deriving DecidableEq, Repr

inductive PageRegion where
  | header
  | body
  | footer
deriving DecidableEq, Repr

/-- `ExtractionConfig` with the skip patterns as a predicate on the stripped
line (`pattern.search` of the compiled skip regexes folded into `skip`). -/
structure ExtractionConfig where
  margin_top : Int
  margin_bottom : Int
  min_repeating : Int
  skip : String → Bool

/-- Page collection phase: strip each line's text, drop empty text, tag by
vertical position (`header` if `page_height - y_top ≤ margin_top`, `footer`
if `y_bottom ≤ margin_bottom`, else `body`). -/
def pageEntries (cfg : ExtractionConfig) (p : PdfPage) : List (String × PageRegion) :=
  p.lines.filterMap fun l =>
    let text := pyStrip l.text
    if text = "" then none
    else if p.height - l.y1 ≤ cfg.margin_top then some (text, PageRegion.header)
    else if l.y0 ≤ cfg.margin_bottom then some (text, PageRegion.footer)
    else some (text, PageRegion.body)

/-- `min_repeating` with the auto-derivation `max(2, total_pages // 3)`. -/
def effectiveMinRepeating (cfg : ExtractionConfig) (totalPages : Nat) : Int :=
  if cfg.min_repeating ≤ 0 then max 2 ((totalPages : Int) / 3) else cfg.min_repeating

/-- Occurrence count of `t` among entries tagged `r` (the header/footer
`Counter`s). -/
def regionCount (entries : List (String × PageRegion)) (r : PageRegion) (t : String) : Nat :=
  entries.countP fun e => e.1 == t && e.2 == r

/-- `should_skip_text`. -/
def should_skip_text (cfg : ExtractionConfig) (t : String) : Bool :=
  pyStrip t = "" || cfg.skip (pyStrip t)

/-- Output filter for one page: drop header/footer lines whose text is in
the corresponding drop set, then the skip patterns. -/
def keptPageLines (cfg : ExtractionConfig) (minRep : Int)
    (allEntries : List (String × PageRegion)) (es : List (String × PageRegion)) :
    List String :=
  es.filterMap fun e =>
    if e.2 == PageRegion.header && minRep ≤ (regionCount allEntries PageRegion.header e.1 : Int) then
      none
    else if e.2 == PageRegion.footer && minRep ≤ (regionCount allEntries PageRegion.footer e.1 : Int) then
      none
    else if should_skip_text cfg e.1 then none
    else some e.1

/-- Page concatenation step: a blank separator is inserted when output was
already produced and does not end blank. -/
def appendPageLines (out : List String) (pl : List String) : List String :=
  if pl.isEmpty then out
  else if out ≠ [] ∧ out.getLast? ≠ some "" then out ++ [""] ++ pl
  else out ++ pl

/-- Trailing normalisation loop: drop blank lines that follow a blank. -/
def normStep (acc : List String) (l : String) : List String :=
  if l = "" ∧ acc ≠ [] ∧ acc.getLast? = some "" then acc else acc ++ [l]

/-- `collect_text_lines` (two-phase: collect and count, then filter). -/
def collect_text_lines (pages : List PdfPage) (cfg : ExtractionConfig) : List String :=
  let entriesPages := pages.map (pageEntries cfg)
  let minRep := effectiveMinRepeating cfg pages.length
  let allEntries := entriesPages.flatten
  let outputLines := entriesPages.foldl
    (fun out es => appendPageLines out (keptPageLines cfg minRep allEntries es)) []
  let normalized := outputLines.foldl normStep []
  match normalized.getLast? with
  | some l => if l ≠ "" then normalized ++ [""] else normalized
  | none => normalized

/-- `^\d+$` (bare page numbers). -/
def bareNumberMatch (l : List Char) : Bool := !l.isEmpty && l.all Char.isDigit

/-- `^page\s+\d+(\s*/\s*\d+)?$` (case-insensitive). -/
def pageNumberMatch (l : List Char) : Bool :=
  match ciPrefixStrip "page".data l with
  | some r1 =>
    let w := r1.takeWhile wsC
    !w.isEmpty &&
      (let r2 := r1.drop w.length
       let ds := r2.takeWhile Char.isDigit
       !ds.isEmpty &&
         (let r3 := r2.drop ds.length
          r3.isEmpty ||
            (let r4 := r3.dropWhile wsC
             match r4 with
             | '/' :: r5 =>
               let r6 := r5.dropWhile wsC
               let ds2 := r6.takeWhile Char.isDigit
               !ds2.isEmpty && (r6.drop ds2.length).isEmpty
             | _ => false)))
  | none => false

/-- `^\d+\s*/\s*\d+$`. -/
def fractionMatch (l : List Char) : Bool :=
  let ds := l.takeWhile Char.isDigit
  !ds.isEmpty &&
    (let r1 := (l.drop ds.length).dropWhile wsC
     match r1 with
     | '/' :: r2 =>
       let r3 := r2.dropWhile wsC
       let ds2 := r3.takeWhile Char.isDigit
       !ds2.isEmpty && (r3.drop ds2.length).isEmpty
     | _ => false)

/-- `^isbn\b.*$` (case-insensitive). -/
def isbnLineMatch (l : List Char) : Bool :=
  match ciPrefixStrip "isbn".data l with
  | some r => (match r with | c :: _ => !wordChar c | [] => true)
  | none => false

/-- `DEFAULT_SKIP_PATTERNS` as a predicate. -/
def default_skip (s : String) : Bool :=
  bareNumberMatch s.data || pageNumberMatch s.data || fractionMatch s.data ||
    isbnLineMatch s.data

/-- Running fence state: fold of a pass's toggle test over processed lines. -/
def fenceStateAfter (tog : String → Bool) (ic : Bool) : List String → Bool
  | [] => ic
  | l :: rest => fenceStateAfter tog (if tog l then !ic else ic) rest

/-- The fence toggle test of `demote_headings` (on the stripped line). -/
def demoteFenceToggle (line : String) : Bool :=
  pyStartsWith (pyStrip line) "```" || pyStartsWith (pyStrip line) "~~~"

/-- Base slug of a heading text (`slugify_heading(text) or "section"`). -/
def baseOf (text : String) : String :=
  if slugify_heading text = "" then "section" else slugify_heading text

/-- Base slug of a recorded TOC entry. -/
def entryBase (e : String × String) : String := baseOf e.1

/-- Count of the heading lines outside fences that receive a slug and a TOC
entry: level 1 or 2, not a Table of Contents heading. -/
def qualifyingCount (ic : Bool) : List String → Nat
  | [] => 0
  | line :: rest =>
    let stripped := pyStrip line
    if pyStartsWith stripped "```" || pyStartsWith stripped "~~~" then
      qualifyingCount (!ic) rest
    else if ic then qualifyingCount ic rest
    else
      match headingMatch line with
      | some (lvl, rawText) =>
        if (if lvl = 1 then 2 else lvl) = 2 ∧
            ¬tocName (pyRstripColon (pyLower (pyStrip rawText))) then
          1 + qualifyingCount ic rest
        else qualifyingCount ic rest
      | none => qualifyingCount ic rest

/-! ### Front-matter round-trip characterization -/

/-- A key that survives the front-matter line format: nonempty, already
stripped, free of `:`, and not opening a comment or list item. -/
def cleanFmKey (k : String) : Bool :=
  k ≠ "" && pyStrip k = k && !pyHasChar k ':' && !pyStartsWith k "#" &&
    !pyStartsWith k "- "

/-- A value the serializer can emit reversibly: scalars free of double
quotes, list items that never need quoting. -/
def cleanFmValue : YamlValue → Bool
  | .scalar s => !pyHasChar s '"'
  | .items xs => xs.all (fun x => !needs_quotes x)

/-- Value the parser recovers for a serialized key (for clean values). -/
def parsedEntryValue (metadata : FmDict) (k : String) : YamlValue :=
  match dictGet metadata k with
  | some (.items xs) => .items xs
  | some (.scalar s) => .scalar s
  | none => .scalar ""

/-- Whether the parser records a serialized key as quoted. -/
def parsedEntryQuoted (metadata : FmDict) (quoted : List String) (k : String) : Bool :=
  match dictGet metadata k with
  | some (.items _) => false
  | some (.scalar s) => quoted.contains k || needs_quotes s
  | none => true

/-- Parser-state effect of one serialized entry. -/
def parseStep (metadata : FmDict) (quoted : List String) (st : FmState) (k : String) :
    FmState :=
  { metadata := dictSet st.metadata k (parsedEntryValue metadata k),
    order := if st.order.contains k then st.order else st.order ++ [k],
    quoted := if parsedEntryQuoted metadata quoted k then addIfAbsent st.quoted k
              else st.quoted,
    currentKey := some k }

/-- Keys kept by the serializer's `seen` filter, in first-seen order. -/
def dedupSeen (seen : List String) : List String → List String
  | [] => []
  | k :: rest =>
    if seen.contains k then dedupSeen seen rest else k :: dedupSeen (k :: seen) rest

/-! ### Claim theorems -/

/-- C6: the text `ISBN: 978-0-13-468599-1` yields the canonical identifier
`9780134685991`; in general a candidate is reduced to its `[0-9Xx]`
characters and accepted only at length 13 (all digits, kept as is) or
length 10 (`[0-9]{9}[0-9Xx]`, uppercased), otherwise rejected. -/
theorem c6_isbn_normalization :
    extract_isbn "ISBN: 978-0-13-468599-1" [] = some "9780134685991" ∧
    (∀ raw s, normalize_isbn raw = some s →
      (s = filterIsbnChars raw ∧ (filterIsbnChars raw).data.length = 13 ∧
        (filterIsbnChars raw).data.all Char.isDigit = true) ∨
      (s = ⟨(filterIsbnChars raw).data.map Char.toUpper⟩ ∧
        (filterIsbnChars raw).data.length = 10 ∧
        isbn10FullMatch (filterIsbnChars raw).data = true)) ∧
    (∀ raw,
      ¬((filterIsbnChars raw).data.length = 13 ∧
        (filterIsbnChars raw).data.all Char.isDigit = true) →
      ¬((filterIsbnChars raw).data.length = 10 ∧
        isbn10FullMatch (filterIsbnChars raw).data = true) →
      normalize_isbn raw = none) := by
  refine ⟨by decide, ?_, ?_⟩
  · intro raw s h
    simp only [normalize_isbn] at h
    split_ifs at h with h0 h13 h10
    · simp only [Bool.and_eq_true, decide_eq_true_eq] at h13
      left
      exact ⟨(Option.some.inj h).symm, h13.1, h13.2⟩
    · simp only [Bool.and_eq_true, decide_eq_true_eq] at h10
      right
      exact ⟨(Option.some.inj h).symm, h10.1, h10.2⟩
  · intro raw hn13 hn10
    simp only [normalize_isbn]
    split_ifs with h0 h13 h10
    · rfl
    · simp only [Bool.and_eq_true, decide_eq_true_eq] at h13
      exact absurd h13 hn13
    · simp only [Bool.and_eq_true, decide_eq_true_eq] at h10
      exact absurd h10 hn10
    · rfl

theorem c6_witness : normalize_isbn "12-3X" = none :=
  c6_isbn_normalization.2.2 "12-3X" (by decide) (by decide)

/-- C8 counterexample: with accumulated text `a--` (which ends with a
hyphen) the next fragment is joined with a space, not appended directly. -/
theorem c8_counterexample :
    pyEndsWith "a--" "-" = true ∧
    combine_paragraph_lines ["a--", "b"] = "a-- b" ∧
    "a-- b" ≠ "a--b" ∧ "a-- b" ≠ "a-b" := by decide

/-- C8 amended: when the accumulated text ends with a hyphen that is not
preceded by another hyphen, the hyphen is removed and the next fragment is
appended without a space; otherwise (including a trailing `--`) fragments
are joined with exactly one space. -/
theorem c8_hyphen_join (c ch : String) (hch : pyStrip ch ≠ "") :
    (c ≠ "" → pyEndsWith c "-" = true → pyEndsWith c "--" = false →
      combineStep c ch = ⟨c.data.dropLast ++ (pyStrip ch).data⟩) ∧
    (c ≠ "" → (pyEndsWith c "-" = false ∨ pyEndsWith c "--" = true) →
      combineStep c ch = c ++ " " ++ pyStrip ch) ∧
    (∀ parts : List String, combine_paragraph_lines parts = parts.foldl combineStep "") := by
  refine ⟨?_, ?_, fun _ => rfl⟩
  · intro hc h1 h2
    simp only [combineStep]
    rw [if_neg hch, if_pos hc, if_pos (by rw [h1, h2]; rfl)]
  · intro hc h2
    simp only [combineStep]
    rw [if_neg hch, if_pos hc, if_neg]
    rcases h2 with h | h <;> rw [h] <;> simp

theorem c8_witness :
    combineStep "spel-" "ling" = "spelling" ∧
    combineStep "The cat" "sat" = "The cat sat" := by
  have h1 := (c8_hyphen_join "spel-" "ling" (by decide)).1 (by decide) (by decide) (by decide)
  have h2 := (c8_hyphen_join "The cat" "sat" (by decide)).2.1 (by decide) (Or.inl (by decide))
  exact ⟨by rw [h1]; decide, by rw [h2]; decide⟩

/-- C3 counterexample: blank-line collapsing removes one of two blank lines
that lie strictly between a fence-open and its matching fence-close. -/
theorem c3_counterexample :
    fenceLine "```" = true ∧
    collapse_blank_lines ["```", "", "", "```"] = ["```", "", "```"] ∧
    collapse_blank_lines ["```", "", "", "```"] ≠ ["```", "", "", "```"] := by decide

/-- C9 counterexample: the existing TOC body is replaced only up to the next
heading of any level; a level-3 heading stops the replacement even though
the claim says the body extends to the next level-2/level-1 heading. -/
theorem c9_counterexample :
    replace_existing_toc ["## Table of Contents", "old", "### Sub", "x"]
        ["## Table of Contents", "", "- [A](#a)", ""] =
      (["## Table of Contents", "", "- [A](#a)", "", "### Sub", "x"], true) ∧
    (["## Table of Contents", "", "- [A](#a)", "", "### Sub", "x"] : List String) ≠
      ["## Table of Contents", "", "- [A](#a)", ""] := by decide

/-- C5 counterexample: a body-tagged line (`7`, below any threshold) is
dropped by the default skip patterns, so body-tagged lines are not always
retained. -/
theorem c5_counterexample :
    pageEntries ⟨36, 36, 0, default_skip⟩ ⟨792, [⟨"7", 400, 410⟩, ⟨"seven", 300, 310⟩]⟩ =
      [("7", PageRegion.body), ("seven", PageRegion.body)] ∧
    collect_text_lines [⟨792, [⟨"7", 400, 410⟩, ⟨"seven", 300, 310⟩]⟩]
        ⟨36, 36, 0, default_skip⟩ = ["seven", ""] ∧
    "7" ∉ collect_text_lines [⟨792, [⟨"7", 400, 410⟩, ⟨"seven", 300, 310⟩]⟩]
        ⟨36, 36, 0, default_skip⟩ := by decide

/-- C1 counterexample: three headings `A 1`, `A`, `A` receive the slugs
`a-1`, `a`, `a-1` — the assigned slugs are not pairwise distinct. -/
theorem c1_counterexample :
    ((demote_headings ["## A 1", "## A", "## A"]).2.1.map Prod.snd) = ["a-1", "a", "a-1"] ∧
    ¬(["a-1", "a", "a-1"] : List String).Nodup := by decide

/-- C4 counterexample: for an unterminated front matter block the input is
passed through verbatim; it is not processed by the body pipeline (the
absent-front-matter path on the same lines demotes the heading and builds a
TOC). -/
theorem c4_counterexample :
    adjust_headings_and_build_toc ["---", "# Title"] = ["---", "# Title"] ∧
    (adjustAssemble [] none ["---", "# Title"]).take 4 =
      ["# Title", "", "## Table of Contents", ""] ∧
    adjust_headings_and_build_toc ["---", "# Title"] ≠
      adjustAssemble [] none ["---", "# Title"] := by decide

theorem demoteGo_length (ls : List String) :
    ∀ ic sc fh, ((demoteGo ic sc fh ls).1).length = ls.length := by
  induction ls with
  | nil => intro ic sc fh; rfl
  | cons l rest ih =>
    intro ic sc fh
    simp only [demoteGo]
    split_ifs with h1 h2
    · simp [ih]
    · simp [ih]
    · cases hm : headingMatch l with
      | none => simp [ih]
      | some p =>
        obtain ⟨lvl, rawText⟩ := p
        simp only [hm]
        split_ifs with h3 <;> simp [ih]

theorem demoteGo_cons (l : String) (rest : List String) (ic : Bool)
    (sc : List (String × Nat)) (fh : Option String) :
    ∃ y sc' fh',
      (demoteGo ic sc fh (l :: rest)).1 =
        y :: (demoteGo (if demoteFenceToggle l then !ic else ic) sc' fh' rest).1 ∧
      ((ic = true ∨ headingMatch l = none) → y = l) := by
  simp only [demoteGo, demoteFenceToggle]
  split_ifs with h1 h2
  · exact ⟨l, sc, fh, rfl, fun _ => rfl⟩
  · exact ⟨l, sc, fh, rfl, fun _ => rfl⟩
  · cases hm : headingMatch l with
    | none => exact ⟨l, sc, fh, by simp [hm], fun _ => rfl⟩
    | some p =>
      obtain ⟨lvl, raw⟩ := p
      simp only [hm]
      split_ifs with h3
      all_goals
        exact ⟨_, _, _, rfl, fun h => by
          rcases h with h | h
          · exact absurd h h2
          · exact h.elim⟩

theorem demoteGo_frame (ls : List String) :
    ∀ ic sc fh i line, ls[i]? = some line →
      (fenceStateAfter demoteFenceToggle ic (ls.take i) = true ∨ headingMatch line = none) →
      ((demoteGo ic sc fh ls).1)[i]? = some line := by
  induction ls with
  | nil => intro ic sc fh i line h; simp at h
  | cons l rest ih =>
    intro ic sc fh i line hline hcond
    obtain ⟨y, sc', fh', heq, hy⟩ := demoteGo_cons l rest ic sc fh
    rw [heq]
    cases i with
    | zero =>
      simp only [List.getElem?_cons_zero, Option.some.injEq] at hline
      subst hline
      simp only [List.getElem?_cons_zero, Option.some.injEq]
      apply hy
      rcases hcond with hic | hn
      · simp only [List.take_zero, fenceStateAfter] at hic
        exact Or.inl hic
      · exact Or.inr hn
    | succ j =>
      simp only [List.getElem?_cons_succ] at hline ⊢
      apply ih _ _ _ _ _ hline
      rcases hcond with hst | hn
      · left
        have hstep : fenceStateAfter demoteFenceToggle ic ((l :: rest).take (j + 1)) =
            fenceStateAfter demoteFenceToggle
              (if demoteFenceToggle l then !ic else ic) (rest.take j) := by
          simp [fenceStateAfter]
        rwa [hstep] at hst
      · right; exact hn

/-- C10: heading demotion returns exactly as many lines as it receives, and
every line that is inside a code fence, or is not a heading line, appears
unchanged at its own position; only heading lines outside fences are
rewritten. -/
theorem c10_demote_frame :
    (∀ ls : List String, (demote_headings ls).1.length = ls.length) ∧
    (∀ (ls : List String) (i : Nat) (line : String), ls[i]? = some line →
      (fenceStateAfter demoteFenceToggle false (ls.take i) = true ∨
        headingMatch line = none) →
      (demote_headings ls).1[i]? = some line) :=
  ⟨fun ls => demoteGo_length ls false [] none,
   fun ls i line h1 h2 => demoteGo_frame ls false [] none i line h1 h2⟩

theorem c10_witness :
    (demote_headings ["```", "# X", "```", "text"]).1.length = 4 ∧
    (demote_headings ["```", "# X", "```", "text"]).1[1]? = some "# X" ∧
    (demote_headings ["```", "# X", "```", "text"]).1[3]? = some "text" :=
  ⟨by rw [c10_demote_frame.1 ["```", "# X", "```", "text"]]; rfl,
   c10_demote_frame.2 ["```", "# X", "```", "text"] 1 "# X" (by decide) (Or.inl (by decide)),
   c10_demote_frame.2 ["```", "# X", "```", "text"] 3 "text" (by decide) (Or.inr (by decide))⟩

theorem rvbGo_append (xs : List String) :
    ∀ ys ic, rvbGo ic (xs ++ ys) =
      rvbGo ic xs ++ rvbGo (fenceStateAfter fenceLine ic xs) ys := by
  induction xs with
  | nil => intro ys ic; rfl
  | cons l rest ih =>
    intro ys ic
    simp only [List.cons_append, rvbGo, fenceStateAfter]
    split_ifs with h1 h2 h3 h4 <;> simp [ih, h1]

theorem rvbGo_inside (b : List String) :
    (∀ l ∈ b, fenceLine l = false) →
    rvbGo true b = b ∧ fenceStateAfter fenceLine true b = true := by
  induction b with
  | nil => intro _; exact ⟨rfl, rfl⟩
  | cons l rest ih =>
    intro hb
    have hl : fenceLine l = false := hb l (by simp)
    have ih' := ih fun x hx => hb x (by simp [hx])
    constructor
    · simp only [rvbGo, hl]
      simp [ih'.1]
    · simp only [fenceStateAfter, hl]
      simpa using ih'.2

theorem rvb_fence_sandwich (a b c : List String) (oL cL : String)
    (ha : fenceStateAfter fenceLine false a = false)
    (ho : fenceLine oL = true) (hb : ∀ l ∈ b, fenceLine l = false)
    (hc : fenceLine cL = true) :
    remove_vestigial_blocks (a ++ oL :: (b ++ cL :: c)) =
      rvbGo false a ++ oL :: (b ++ cL :: rvbGo false c) := by
  unfold remove_vestigial_blocks
  rw [rvbGo_append a, ha]
  congr 1
  have h1 : rvbGo false (oL :: (b ++ cL :: c)) = oL :: rvbGo true (b ++ cL :: c) := by
    simp only [rvbGo, ho]
    simp
  rw [h1, rvbGo_append b, (rvbGo_inside b hb).1, (rvbGo_inside b hb).2]
  have h2 : rvbGo true (cL :: c) = cL :: rvbGo false c := by
    simp only [rvbGo, hc]
    simp
  rw [h2]

theorem flushPara_nil : flushPara [] = [] := rfl

theorem unwrapGo_inside (b : List String) :
    (∀ l ∈ b, fenceLine (pyRstrip l) = false) →
    ∀ B rest, unwrapGo true B (b ++ rest) = b.map pyRstrip ++ unwrapGo true B rest := by
  induction b with
  | nil => intro _ B rest; rfl
  | cons l rest' ih =>
    intro hb B rest
    have hl : fenceLine (pyRstrip l) = false := hb l (by simp)
    have ih' := ih (fun x hx => hb x (by simp [hx])) B rest
    simp [unwrapGo, hl, ih']

theorem unwrap_fence_sandwich (B b c : List String) (oL cL : String)
    (ho : fenceLine (pyRstrip oL) = true)
    (hb : ∀ l ∈ b, fenceLine (pyRstrip l) = false)
    (hc : fenceLine (pyRstrip cL) = true) :
    unwrapGo false B (oL :: (b ++ cL :: c)) =
      flushPara B ++ pyRstrip oL ::
        (b.map pyRstrip ++ pyRstrip cL :: unwrapGo false [] c) := by
  have htail : unwrapGo true [] (cL :: c) = pyRstrip cL :: unwrapGo false [] c := by
    simp [unwrapGo, hc, flushPara_nil]
  have hmid := unwrapGo_inside b hb [] (cL :: c)
  simp [unwrapGo, ho, hmid, htail, hc, flushPara_nil]

theorem c3_fence_safety :
    (∀ a b c oL cL, fenceStateAfter fenceLine false a = false → fenceLine oL = true →
      (∀ l ∈ b, fenceLine l = false) → fenceLine cL = true →
      remove_vestigial_blocks (a ++ oL :: (b ++ cL :: c)) =
        rvbGo false a ++ oL :: (b ++ cL :: rvbGo false c)) ∧
    (∀ B b c oL cL, fenceLine (pyRstrip oL) = true →
      (∀ l ∈ b, fenceLine (pyRstrip l) = false) → fenceLine (pyRstrip cL) = true →
      unwrapGo false B (oL :: (b ++ cL :: c)) =
        flushPara B ++ pyRstrip oL ::
          (b.map pyRstrip ++ pyRstrip cL :: unwrapGo false [] c)) ∧
    (∀ (ls : List String) (i : Nat) (line : String), ls[i]? = some line →
      fenceStateAfter demoteFenceToggle false (ls.take i) = true →
      (demote_headings ls).1[i]? = some line) :=
  ⟨fun a b c oL cL h1 h2 h3 h4 => rvb_fence_sandwich a b c oL cL h1 h2 h3 h4,
   fun B b c oL cL h1 h2 h3 => unwrap_fence_sandwich B b c oL cL h1 h2 h3,
   fun ls i line h1 h2 => demoteGo_frame ls false [] none i line h1 (Or.inl h2)⟩

theorem c3_witness :
    remove_vestigial_blocks ["x", "```", "::: calibre1", "```", "y"] =
      ["x", "```", "::: calibre1", "```", "y"] ∧
    unwrapGo false [] ["```", "code  ", "```"] = ["```", "code", "```"] ∧
    (demote_headings ["```", "# H", "```"]).1[1]? = some "# H" := by
  refine ⟨?_, ?_, ?_⟩
  · have h := c3_fence_safety.1 ["x"] ["::: calibre1"] ["y"] "```" "```"
      (by decide) (by decide) (by decide) (by decide)
    exact h.trans (by decide)
  · have h := c3_fence_safety.2.1 [] ["code  "] [] "```" "```"
      (by decide) (by decide) (by decide)
    exact h.trans (by decide)
  · exact c3_fence_safety.2.2 ["```", "# H", "```"] 1 "# H" (by decide) (by decide)

theorem strMk_ne_empty (l : List Char) (h : l ≠ []) : (⟨l⟩ : String) ≠ "" := by
  intro he
  have : l = [] := by
    have := congrArg String.data he
    simpa using this
  exact h this

theorem combineStep_ne_empty (c p : String) (h : c ≠ "" ∨ pyStrip p ≠ "") :
    combineStep c p ≠ "" := by
  simp only [combineStep]
  split_ifs with h1 h2 h3
  · rcases h with h | h
    · exact h
    · exact absurd h1 h
  · apply strMk_ne_empty
    simp only [ne_eq, List.append_eq_nil, not_and]
    intro _
    intro hc
    have : pyStrip p = "" := by
      have := congrArg (fun l : List Char => (⟨l⟩ : String)) hc
      simpa using this
    exact absurd this h1
  · intro he
    have := congrArg String.data he
    simp at this
  · exact h1

theorem foldl_combineStep_ne_empty (parts : List String) :
    ∀ c, c ≠ "" → parts.foldl combineStep c ≠ "" := by
  induction parts with
  | nil => intro c hc; exact hc
  | cons p rest ih =>
    intro c hc
    exact ih _ (combineStep_ne_empty c p (Or.inl hc))

theorem candidate_strip_ne (x : String) (h : is_paragraph_candidate x = true) :
    pyStrip x ≠ "" := by
  intro he
  simp [is_paragraph_candidate, he] at h

theorem combine_cons_ne_empty (l : String) (parts : List String) (hl : pyStrip l ≠ "") :
    combine_paragraph_lines (l :: parts) ≠ "" := by
  have hstep : combineStep "" l = pyStrip l := by
    simp only [combineStep]
    rw [if_neg hl]
    simp
  show (l :: parts).foldl combineStep "" ≠ ""
  rw [List.foldl_cons, hstep]
  exact foldl_combineStep_ne_empty parts _ hl

theorem unwrapGo_buffer (b : List String) :
    (∀ l ∈ b, fenceLine (pyRstrip l) = false ∧ is_paragraph_candidate (pyRstrip l) = true) →
    ∀ B rest, unwrapGo false B (b ++ rest) = unwrapGo false (B ++ b.map pyRstrip) rest := by
  induction b with
  | nil => intro _ B rest; simp
  | cons l rest' ih =>
    intro hb B rest
    obtain ⟨hf, hc⟩ := hb l (by simp)
    have hs : ¬pyStrip (pyRstrip l) = "" := candidate_strip_ne _ hc
    have ih' := ih (fun x hx => hb x (by simp [hx])) (B ++ [pyRstrip l]) rest
    simp only [List.cons_append, unwrapGo, hf, hs, hc]
    simp only [Bool.false_eq_true, if_false, ite_false, if_true, List.append_eq]
    rw [ih']
    simp

theorem c7_flush_step (b : List String) (r : String) (rest : List String) (hb0 : b ≠ [])
    (hb : ∀ l ∈ b, fenceLine (pyRstrip l) = false ∧ is_paragraph_candidate (pyRstrip l) = true)
    (hrf : fenceLine (pyRstrip r) = false) (hrs : pyStrip (pyRstrip r) ≠ "")
    (hrc : is_paragraph_candidate (pyRstrip r) = false) :
    unwrapGo false [] (b ++ r :: rest) =
      combine_paragraph_lines (b.map pyRstrip) :: "" :: pyRstrip r ::
        unwrapGo false [] rest := by
  rw [unwrapGo_buffer b hb [] (r :: rest)]
  obtain ⟨l0, b', rfl⟩ := List.exists_cons_of_ne_nil hb0
  have hcomb : combine_paragraph_lines ((l0 :: b').map pyRstrip) ≠ "" := by
    apply combine_cons_ne_empty
    have := candidate_strip_ne _ (hb l0 (by simp)).2
    simpa using this
  simp only [List.nil_append, unwrapGo, hrf, hrs, hrc]
  simp only [Bool.false_eq_true, if_false, ite_false]
  simp only [flushPara, if_neg hcomb]
  simp

theorem c7_final_flush (b : List String) (hb0 : b ≠ [])
    (hb : ∀ l ∈ b, fenceLine (pyRstrip l) = false ∧ is_paragraph_candidate (pyRstrip l) = true) :
    unwrap_paragraphs b = [combine_paragraph_lines (b.map pyRstrip)] := by
  have h1 : unwrapGo false [] b = unwrapGo false (b.map pyRstrip) [] := by
    have := unwrapGo_buffer b hb [] []
    simpa using this
  obtain ⟨l0, b', rfl⟩ := List.exists_cons_of_ne_nil hb0
  have hcomb : combine_paragraph_lines ((l0 :: b').map pyRstrip) ≠ "" := by
    apply combine_cons_ne_empty
    have := candidate_strip_ne _ (hb l0 (by simp)).2
    simpa using this
  have h2 : unwrapGo false ((l0 :: b').map pyRstrip) [] =
      [combine_paragraph_lines ((l0 :: b').map pyRstrip), ""] := by
    simp only [unwrapGo, flushPara, if_neg hcomb]
  unfold unwrap_paragraphs
  rw [h1, h2]
  simp

/-- C7: the input `The cat sat` / `on the mat.` reflows to the single line
`The cat sat on the mat.`; in general a maximal run of paragraph-candidate
lines is buffered and joined into one paragraph that the flush emits
followed by exactly one blank line. -/
theorem c7_paragraph_reflow :
    normalise_text "The cat sat\non the mat." = "The cat sat on the mat.\n" ∧
    (∀ b r rest, b ≠ [] →
      (∀ l ∈ b, fenceLine (pyRstrip l) = false ∧
        is_paragraph_candidate (pyRstrip l) = true) →
      fenceLine (pyRstrip r) = false → pyStrip (pyRstrip r) ≠ "" →
      is_paragraph_candidate (pyRstrip r) = false →
      unwrapGo false [] (b ++ r :: rest) =
        combine_paragraph_lines (b.map pyRstrip) :: "" :: pyRstrip r ::
          unwrapGo false [] rest) ∧
    (∀ b, b ≠ [] →
      (∀ l ∈ b, fenceLine (pyRstrip l) = false ∧
        is_paragraph_candidate (pyRstrip l) = true) →
      unwrap_paragraphs b = [combine_paragraph_lines (b.map pyRstrip)]) :=
  ⟨by decide, fun b r rest h1 h2 h3 h4 h5 => c7_flush_step b r rest h1 h2 h3 h4 h5,
   fun b h1 h2 => c7_final_flush b h1 h2⟩

theorem c7_witness :
    unwrap_paragraphs ["The cat sat", "on the mat."] = ["The cat sat on the mat."] ∧
    unwrapGo false [] ["alpha", "beta", "# H", "done"] =
      ["alpha beta", "", "# H", "done", ""] := by
  constructor
  · have h := c7_paragraph_reflow.2.2 ["The cat sat", "on the mat."] (by decide) (by decide)
    exact h.trans (by decide)
  · have h := c7_paragraph_reflow.2.1 ["alpha", "beta"] "# H" ["done"]
      (by decide) (by decide) (by decide) (by decide) (by decide)
    exact h.trans (by decide)

theorem replaceTocGo_found (a : List String) :
    ∀ tL z, (∀ l ∈ a, isTocHeadingLine l = false) → isTocHeadingLine tL = true →
      replaceTocGo (a ++ tL :: z) =
        some (a, z.dropWhile (fun x => (headingMatch x).isNone)) := by
  induction a with
  | nil => intro tL z _ ht; simp [replaceTocGo, ht]
  | cons l rest ih =>
    intro tL z ha ht
    have hl : isTocHeadingLine l = false := ha l (by simp)
    simp only [List.cons_append, replaceTocGo, hl, List.append_eq]
    rw [ih tL z (fun x hx => ha x (by simp [hx])) ht]
    simp

theorem dropWhile_nonheading (b : List String) :
    (∀ l ∈ b, headingMatch l = none) →
    ∀ z, (b ++ z).dropWhile (fun x => (headingMatch x).isNone) =
      z.dropWhile (fun x => (headingMatch x).isNone) := by
  induction b with
  | nil => intro _ z; rfl
  | cons l rest ih =>
    intro hb z
    have hl : headingMatch l = none := hb l (by simp)
    simp only [List.cons_append, List.dropWhile, hl]
    exact ih (fun x hx => hb x (by simp [hx])) z

/-- C9 amended: the existing TOC body is replaced from the TOC heading up to
(but not including) the next heading line of any level (1-6); when no
heading follows, everything to the end of the document is replaced; lines
from that next heading on are unchanged. -/
theorem c9_toc_replacement (a b c : List String) (tL hL : String) (toc : List String)
    (htoc : toc ≠ []) (ha : ∀ l ∈ a, isTocHeadingLine l = false)
    (htL : isTocHeadingLine tL = true) (hb : ∀ l ∈ b, headingMatch l = none)
    (hhL : (headingMatch hL).isSome = true) :
    replace_existing_toc (a ++ tL :: (b ++ hL :: c)) toc = (a ++ (toc ++ hL :: c), true) ∧
    replace_existing_toc (a ++ tL :: b) toc = (a ++ toc, true) := by
  obtain ⟨t0, toc', rfl⟩ := List.exists_cons_of_ne_nil htoc
  have hdropc : (hL :: c).dropWhile (fun x => (headingMatch x).isNone) = hL :: c := by
    cases hm : headingMatch hL with
    | none => rw [hm] at hhL; cases hhL
    | some p => simp [List.dropWhile, hm]
  constructor
  · simp only [replace_existing_toc,
      replaceTocGo_found a tL (b ++ hL :: c) ha htL,
      dropWhile_nonheading b hb (hL :: c), hdropc]
    simp [List.append_assoc]
  · simp only [replace_existing_toc, replaceTocGo_found a tL b ha htL]
    have : b.dropWhile (fun x => (headingMatch x).isNone) = [] := by
      have := dropWhile_nonheading b hb []
      simpa using this
    rw [this]
    simp

theorem c9_witness :
    replace_existing_toc
        ["intro", "## Table of Contents", "- old1", "- old2", "## One", "body"]
        ["## Table of Contents", "", "- [One](#one)", ""] =
      (["intro", "## Table of Contents", "", "- [One](#one)", "", "## One", "body"], true) := by
  have h := (c9_toc_replacement ["intro"] ["- old1", "- old2"] ["body"]
      "## Table of Contents" "## One" ["## Table of Contents", "", "- [One](#one)", ""]
      (by decide) (by decide) (by decide) (by decide) (by decide)).1
  exact h.trans (by decide)

theorem fmScan_none (rest : List String) :
    (∀ l ∈ rest, pyStrip l ≠ "---") → fmScan rest = none := by
  induction rest with
  | nil => intro _; rfl
  | cons l r ih =>
    intro h
    simp only [fmScan, h l (by simp)]
    rw [ih fun x hx => h x (by simp [hx])]
    simp

theorem parse_fm_unterminated (l0 : String) (rest : List String) (hne : rest ≠ [])
    (hrest : ∀ l ∈ rest, pyStrip l ≠ "---") :
    parse_front_matter_block (l0 :: rest) = none := by
  obtain ⟨r0, rest', rfl⟩ := List.exists_cons_of_ne_nil hne
  simp only [parse_front_matter_block]
  split_ifs with h1
  · rfl
  · have hlast : (l0 :: r0 :: rest').getLast? = (r0 :: rest').getLast? := by
      simp [List.getLast?_cons_cons]
    rw [hlast]
    have hmem : ∀ x, (r0 :: rest').getLast? = some x → x ∈ r0 :: rest' := by
      intro x hx
      exact List.mem_of_getLast?_eq_some hx
    cases hg : (r0 :: rest').getLast? with
    | none => simp at hg
    | some lN =>
      have : pyStrip lN ≠ "---" := hrest lN (hmem lN hg)
      simp [this]

theorem bodyPasses_nil : bodyPasses [] = [] := rfl

theorem demote_headings_nil : demote_headings [] = ([], [], none) := rfl

theorem adjustAssemble_raw (x : String) (xs : List String) :
    adjustAssemble (x :: xs) none [] = x :: xs := by
  unfold adjustAssemble
  simp [bodyPasses_nil, demote_headings_nil, build_toc_lines, replace_existing_toc,
    replaceTocGo]

/-- C4 amended: when the leading front matter block is unterminated, the
parser fails soft (`parse_front_matter_block` returns `none`, no error), the
metadata is empty, and the whole input is captured as the unparsed front
matter block and emitted verbatim — the body pipeline runs on an empty
body, not on the input. -/
theorem c4_front_matter_soft_failure (lines : List String) (l0 : String)
    (rest : List String) (hshape : lines.map nbspReplace = l0 :: rest)
    (hne : rest ≠ []) (h0 : pyStrip l0 = "---")
    (hrest : ∀ l ∈ rest, pyStrip l ≠ "---") :
    parse_front_matter_block (l0 :: rest) = none ∧
    adjust_headings_and_build_toc lines = l0 :: rest := by
  have hparse := parse_fm_unterminated l0 rest hne hrest
  refine ⟨hparse, ?_⟩
  unfold adjust_headings_and_build_toc
  rw [hshape]
  simp only [h0, if_pos, fmScan_none rest hrest, hparse]
  show adjustAssemble (l0 :: rest) none [] = l0 :: rest
  exact adjustAssemble_raw l0 rest

theorem c4_witness :
    parse_front_matter_block ["---", "# Title"] = none ∧
    adjust_headings_and_build_toc ["---", "# Title"] = ["---", "# Title"] :=
  c4_front_matter_soft_failure ["---", "# Title"] "---" ["# Title"]
    (by decide) (by decide) (by decide) (by decide)

theorem mem_keptPageLines (cfg : ExtractionConfig) (minRep : Int)
    (allE es : List (String × PageRegion)) (s : String) :
    s ∈ keptPageLines cfg minRep allE es ↔
      ∃ e ∈ es, e.1 = s ∧
        ¬(e.2 = PageRegion.header ∧
          minRep ≤ (regionCount allE PageRegion.header s : Int)) ∧
        ¬(e.2 = PageRegion.footer ∧
          minRep ≤ (regionCount allE PageRegion.footer s : Int)) ∧
        should_skip_text cfg s = false := by
  rw [keptPageLines, List.mem_filterMap]
  constructor
  · rintro ⟨e, he, hfe⟩
    split_ifs at hfe with h1 h2 h3
    obtain rfl : e.1 = s := Option.some.inj hfe
    refine ⟨e, he, rfl, ?_, ?_, ?_⟩
    · intro ⟨hr, hcnt⟩
      exact h1 (by simp [hr, hcnt])
    · intro ⟨hr, hcnt⟩
      exact h2 (by simp [hr, hcnt])
    · simpa using h3
  · rintro ⟨e, he, rfl, h1, h2, h3⟩
    refine ⟨e, he, ?_⟩
    rw [if_neg, if_neg, if_neg]
    · simpa using h3
    · intro hb
      simp only [Bool.and_eq_true, beq_iff_eq, decide_eq_true_eq] at hb
      exact h2 hb
    · intro hb
      simp only [Bool.and_eq_true, beq_iff_eq, decide_eq_true_eq] at hb
      exact h1 hb

theorem mem_foldl_appendPageLines (s : String) (hs : s ≠ "") (pls : List (List String)) :
    ∀ acc, s ∈ pls.foldl appendPageLines acc ↔ s ∈ acc ∨ ∃ pl ∈ pls, s ∈ pl := by
  induction pls with
  | nil => intro acc; simp
  | cons pl rest ih =>
    intro acc
    rw [List.foldl_cons, ih]
    have happ : s ∈ appendPageLines acc pl ↔ s ∈ acc ∨ s ∈ pl := by
      unfold appendPageLines
      split_ifs with h1 h2
      · rw [List.isEmpty_iff] at h1
        simp [h1]
      · simp [hs]
      · simp
    rw [happ, List.exists_mem_cons_iff]
    exact or_assoc

theorem mem_foldl_normStep (s : String) (hs : s ≠ "") (ls : List String) :
    ∀ acc, s ∈ ls.foldl normStep acc ↔ s ∈ acc ∨ s ∈ ls := by
  induction ls with
  | nil => intro acc; simp
  | cons l rest ih =>
    intro acc
    rw [List.foldl_cons, ih]
    have hstep : s ∈ normStep acc l ↔ s ∈ acc ∨ s = l := by
      unfold normStep
      split_ifs with h1
      · obtain ⟨hl, -, -⟩ := h1
        subst hl
        simp [hs]
      · simp [eq_comm]
    rw [hstep, List.mem_cons]
    exact or_assoc

/-- C5 amended: a non-blank string occurs in the output iff some page has an
entry with that (stripped) text which is not dropped by the per-region
repetition threshold and does not match a configured skip pattern;
body-tagged lines are retained only when no skip pattern matches. -/
theorem c5_repetition_filtering (pages : List PdfPage) (cfg : ExtractionConfig)
    (s : String) (hs : s ≠ "") :
    s ∈ collect_text_lines pages cfg ↔
      ∃ p ∈ pages, ∃ e ∈ pageEntries cfg p, e.1 = s ∧
        ¬(e.2 = PageRegion.header ∧
          effectiveMinRepeating cfg pages.length ≤
            (regionCount ((pages.map (pageEntries cfg)).flatten) PageRegion.header s : Int)) ∧
        ¬(e.2 = PageRegion.footer ∧
          effectiveMinRepeating cfg pages.length ≤
            (regionCount ((pages.map (pageEntries cfg)).flatten) PageRegion.footer s : Int)) ∧
        should_skip_text cfg s = false := by
  unfold collect_text_lines
  have hmem1 :
      ∀ (outputLines : List String),
        (s ∈ (match (outputLines.foldl normStep []).getLast? with
          | some l => if l ≠ "" then (outputLines.foldl normStep []) ++ [""]
                      else outputLines.foldl normStep []
          | none => outputLines.foldl normStep [])) ↔
        s ∈ outputLines.foldl normStep [] := by
    intro outputLines
    cases hg : (outputLines.foldl normStep []).getLast? with
    | none => simp
    | some l =>
      show s ∈ (if l ≠ "" then (outputLines.foldl normStep []) ++ [""]
          else outputLines.foldl normStep []) ↔ s ∈ outputLines.foldl normStep []
      split_ifs with h1
      · simp [hs]
      · simp
  rw [hmem1]
  rw [mem_foldl_normStep s hs _ []]
  have hfm : (pages.map (pageEntries cfg)).foldl
      (fun out es => appendPageLines out
        (keptPageLines cfg (effectiveMinRepeating cfg pages.length)
          ((pages.map (pageEntries cfg)).flatten) es)) [] =
      ((pages.map (pageEntries cfg)).map
        (keptPageLines cfg (effectiveMinRepeating cfg pages.length)
          ((pages.map (pageEntries cfg)).flatten))).foldl appendPageLines [] := by
    simp [List.foldl_map]
  rw [hfm, mem_foldl_appendPageLines s hs _ []]
  simp only [List.mem_singleton, List.not_mem_nil, false_or, List.mem_map,
    List.length_map]
  constructor
  · rintro ⟨pl, ⟨es, ⟨p, hp, rfl⟩, rfl⟩, hin⟩
    obtain ⟨e, he, h⟩ := (mem_keptPageLines _ _ _ _ _).mp hin
    exact ⟨p, hp, e, he, h⟩
  · rintro ⟨p, hp, e, he, h⟩
    refine ⟨keptPageLines cfg (effectiveMinRepeating cfg pages.length)
      ((pages.map (pageEntries cfg)).flatten) (pageEntries cfg p),
      ⟨pageEntries cfg p, ⟨p, hp, rfl⟩, rfl⟩, ?_⟩
    exact (mem_keptPageLines _ _ _ _ _).mpr ⟨e, he, h⟩

theorem c5_witness :
    "Chapter Footer" ∉ collect_text_lines
      [⟨792, [⟨"Body line 1", 400, 410⟩, ⟨"Chapter Footer", 10, 20⟩]⟩,
       ⟨792, [⟨"Body line 2", 400, 410⟩, ⟨"Chapter Footer", 10, 20⟩]⟩,
       ⟨792, [⟨"Body line 3", 400, 410⟩, ⟨"Chapter Footer", 10, 20⟩]⟩,
       ⟨792, [⟨"Body line 4", 400, 410⟩, ⟨"Chapter Footer", 10, 20⟩]⟩,
       ⟨792, [⟨"Body line 5", 400, 410⟩, ⟨"Chapter Footer", 10, 20⟩]⟩,
       ⟨792, [⟨"Body line 6", 400, 410⟩, ⟨"Chapter Footer", 10, 20⟩]⟩,
       ⟨792, [⟨"Body line 7", 400, 410⟩, ⟨"Chapter Footer", 10, 20⟩]⟩,
       ⟨792, [⟨"Body line 8", 400, 410⟩, ⟨"Chapter Footer", 10, 20⟩]⟩,
       ⟨792, [⟨"Body line 9", 400, 410⟩]⟩,
       ⟨792, [⟨"Body line 10", 400, 410⟩]⟩] ⟨36, 36, 0, default_skip⟩ ∧
    "Body line 3" ∈ collect_text_lines
      [⟨792, [⟨"Body line 1", 400, 410⟩, ⟨"Chapter Footer", 10, 20⟩]⟩,
       ⟨792, [⟨"Body line 2", 400, 410⟩, ⟨"Chapter Footer", 10, 20⟩]⟩,
       ⟨792, [⟨"Body line 3", 400, 410⟩, ⟨"Chapter Footer", 10, 20⟩]⟩,
       ⟨792, [⟨"Body line 4", 400, 410⟩, ⟨"Chapter Footer", 10, 20⟩]⟩,
       ⟨792, [⟨"Body line 5", 400, 410⟩, ⟨"Chapter Footer", 10, 20⟩]⟩,
       ⟨792, [⟨"Body line 6", 400, 410⟩, ⟨"Chapter Footer", 10, 20⟩]⟩,
       ⟨792, [⟨"Body line 7", 400, 410⟩, ⟨"Chapter Footer", 10, 20⟩]⟩,
       ⟨792, [⟨"Body line 8", 400, 410⟩, ⟨"Chapter Footer", 10, 20⟩]⟩,
       ⟨792, [⟨"Body line 9", 400, 410⟩]⟩,
       ⟨792, [⟨"Body line 10", 400, 410⟩]⟩] ⟨36, 36, 0, default_skip⟩ := by
  constructor
  · intro hmem
    have h := (c5_repetition_filtering
      [⟨792, [⟨"Body line 1", 400, 410⟩, ⟨"Chapter Footer", 10, 20⟩]⟩,
       ⟨792, [⟨"Body line 2", 400, 410⟩, ⟨"Chapter Footer", 10, 20⟩]⟩,
       ⟨792, [⟨"Body line 3", 400, 410⟩, ⟨"Chapter Footer", 10, 20⟩]⟩,
       ⟨792, [⟨"Body line 4", 400, 410⟩, ⟨"Chapter Footer", 10, 20⟩]⟩,
       ⟨792, [⟨"Body line 5", 400, 410⟩, ⟨"Chapter Footer", 10, 20⟩]⟩,
       ⟨792, [⟨"Body line 6", 400, 410⟩, ⟨"Chapter Footer", 10, 20⟩]⟩,
       ⟨792, [⟨"Body line 7", 400, 410⟩, ⟨"Chapter Footer", 10, 20⟩]⟩,
       ⟨792, [⟨"Body line 8", 400, 410⟩, ⟨"Chapter Footer", 10, 20⟩]⟩,
       ⟨792, [⟨"Body line 9", 400, 410⟩]⟩,
       ⟨792, [⟨"Body line 10", 400, 410⟩]⟩] ⟨36, 36, 0, default_skip⟩
      "Chapter Footer" (by decide)).mp hmem
    revert h
    decide
  · exact (c5_repetition_filtering
      [⟨792, [⟨"Body line 1", 400, 410⟩, ⟨"Chapter Footer", 10, 20⟩]⟩,
       ⟨792, [⟨"Body line 2", 400, 410⟩, ⟨"Chapter Footer", 10, 20⟩]⟩,
       ⟨792, [⟨"Body line 3", 400, 410⟩, ⟨"Chapter Footer", 10, 20⟩]⟩,
       ⟨792, [⟨"Body line 4", 400, 410⟩, ⟨"Chapter Footer", 10, 20⟩]⟩,
       ⟨792, [⟨"Body line 5", 400, 410⟩, ⟨"Chapter Footer", 10, 20⟩]⟩,
       ⟨792, [⟨"Body line 6", 400, 410⟩, ⟨"Chapter Footer", 10, 20⟩]⟩,
       ⟨792, [⟨"Body line 7", 400, 410⟩, ⟨"Chapter Footer", 10, 20⟩]⟩,
       ⟨792, [⟨"Body line 8", 400, 410⟩, ⟨"Chapter Footer", 10, 20⟩]⟩,
       ⟨792, [⟨"Body line 9", 400, 410⟩]⟩,
       ⟨792, [⟨"Body line 10", 400, 410⟩]⟩] ⟨36, 36, 0, default_skip⟩
      "Body line 3" (by decide)).mpr (by decide)

theorem decDigitsGo_fuel (f : Nat) :
    ∀ g n, n ≤ f → n ≤ g → decDigitsGo f n = decDigitsGo g n := by
  induction f with
  | zero =>
    intro g n hf hg
    interval_cases n
    cases g with
    | zero => rfl
    | succ g' => simp [decDigitsGo]
  | succ f ih =>
    intro g n hf hg
    cases g with
    | zero =>
      interval_cases n
      simp [decDigitsGo]
    | succ g' =>
      simp only [decDigitsGo]
      split_ifs with h
      · rfl
      · have hlt : n / 10 < n := Nat.div_lt_self (by omega) (by omega)
        rw [ih g' (n / 10) (by omega) (by omega)]

theorem natDecL_lt (n : Nat) (h : n < 10) : natDecL n = [n] := by
  unfold natDecL
  cases n with
  | zero => rfl
  | succ m => simp [decDigitsGo, h]

theorem natDecL_ge (n : Nat) (h : 10 ≤ n) :
    natDecL n = natDecL (n / 10) ++ [n % 10] := by
  unfold natDecL
  obtain ⟨m, rfl⟩ : ∃ m, n = m + 1 := ⟨n - 1, by omega⟩
  have hlt : (m + 1) / 10 < m + 1 := Nat.div_lt_self (by omega) (by omega)
  simp only [decDigitsGo, Nat.not_lt.mpr h, if_neg (by omega : ¬m + 1 < 10)]
  rw [decDigitsGo_fuel m ((m + 1) / 10) ((m + 1) / 10) (by omega) (le_refl _)]
  simp

theorem natDecL_ne_nil (n : Nat) : natDecL n ≠ [] := by
  by_cases h : n < 10
  · rw [natDecL_lt n h]; simp
  · rw [natDecL_ge n (by omega)]; simp

theorem natDecL_all_lt (n : Nat) : ∀ d ∈ natDecL n, d < 10 := by
  induction n using Nat.strong_induction_on with
  | _ n ih =>
    by_cases h : n < 10
    · rw [natDecL_lt n h]
      intro d hd
      simp at hd
      omega
    · rw [natDecL_ge n (by omega)]
      intro d hd
      rcases List.mem_append.mp hd with hd | hd
      · exact ih (n / 10) (Nat.div_lt_self (by omega) (by omega)) d hd
      · simp at hd
        omega

theorem natDecL_inj : ∀ n m, natDecL n = natDecL m → n = m := by
  intro n
  induction n using Nat.strong_induction_on with
  | _ n ih =>
    intro m h
    by_cases hn : n < 10 <;> by_cases hm : m < 10
    · rw [natDecL_lt n hn, natDecL_lt m hm] at h
      simpa using h
    · rw [natDecL_lt n hn, natDecL_ge m (by omega)] at h
      have h1 := congrArg List.length h
      rw [List.length_append] at h1
      simp only [List.length_cons, List.length_nil] at h1
      have hp : 0 < (natDecL (m / 10)).length := List.length_pos.mpr (natDecL_ne_nil _)
      omega
    · rw [natDecL_ge n (by omega), natDecL_lt m hm] at h
      have h1 := congrArg List.length h
      rw [List.length_append] at h1
      simp only [List.length_cons, List.length_nil] at h1
      have hp : 0 < (natDecL (n / 10)).length := List.length_pos.mpr (natDecL_ne_nil _)
      omega
    · rw [natDecL_ge n (by omega), natDecL_ge m (by omega)] at h
      obtain ⟨h1, h2⟩ := List.append_inj' h (by simp)
      have hdiv := ih (n / 10) (Nat.div_lt_self (by omega) (by omega)) (m / 10) h1
      have hmod : n % 10 = m % 10 := by simpa using h2
      omega

theorem digitChar_inj_lt :
    ∀ a, a < 10 → ∀ b, b < 10 → Nat.digitChar a = Nat.digitChar b → a = b := by decide

theorem map_digitChar_inj :
    ∀ l1 l2 : List Nat, (∀ d ∈ l1, d < 10) → (∀ d ∈ l2, d < 10) →
      l1.map Nat.digitChar = l2.map Nat.digitChar → l1 = l2 := by
  intro l1
  induction l1 with
  | nil =>
    intro l2 _ _ h
    cases l2 with
    | nil => rfl
    | cons b bs => simp at h
  | cons a as ih =>
    intro l2 h1 h2 h
    cases l2 with
    | nil => simp at h
    | cons b bs =>
      simp only [List.map_cons, List.cons.injEq] at h
      have ha := digitChar_inj_lt a (h1 a (by simp)) b (h2 b (by simp)) h.1
      rw [ha, ih bs (fun d hd => h1 d (by simp [hd])) (fun d hd => h2 d (by simp [hd])) h.2]

theorem natDecStr_inj (n m : Nat) (h : natDecStr n = natDecStr m) : n = m := by
  unfold natDecStr at h
  have hdata := congrArg String.data h
  simp only at hdata
  exact natDecL_inj n m
    (map_digitChar_inj _ _ (natDecL_all_lt n) (natDecL_all_lt m) hdata)

theorem mkSlugId_data (b : String) (c : Nat) (hc : 0 < c) :
    (mkSlugId b c).data = b.data ++ '-' :: (natDecL c).map Nat.digitChar := by
  unfold mkSlugId
  rw [if_neg (by omega)]
  show (b ++ "-" ++ natDecStr c).data = _
  rw [String.data_append, String.data_append]
  rw [(by decide : ("-" : String).data = ['-'])]
  rw [List.append_assoc]
  rfl

theorem mkSlugId_inj (b : String) : ∀ c c', mkSlugId b c = mkSlugId b c' → c = c' := by
  intro c c' h
  by_cases hc : c = 0 <;> by_cases hc' : c' = 0
  · omega
  · exfalso
    subst hc
    have hd := congrArg String.data h
    rw [mkSlugId_data b c' (by omega)] at hd
    have : (mkSlugId b 0).data = b.data := rfl
    rw [this] at hd
    have := congrArg List.length hd
    simp at this
  · exfalso
    subst hc'
    have hd := congrArg String.data h
    rw [mkSlugId_data b c (by omega)] at hd
    have h0 : (mkSlugId b 0).data = b.data := rfl
    rw [h0] at hd
    have := congrArg List.length hd
    simp at this
  · have hd := congrArg String.data h
    rw [mkSlugId_data b c (by omega), mkSlugId_data b c' (by omega)] at hd
    have h1 := List.append_cancel_left hd
    simp only [List.cons.injEq, true_and] at h1
    exact natDecL_inj c c'
      (map_digitChar_inj _ _ (natDecL_all_lt c) (natDecL_all_lt c') h1)

theorem countGet_countSet_self (sc : List (String × Nat)) (k : String) (v : Nat) :
    countGet (countSet sc k v) k = v := by
  induction sc with
  | nil => simp [countSet, countGet]
  | cons p rest ih =>
    obtain ⟨k', v'⟩ := p
    by_cases h : k' = k
    · simp [countSet, countGet, h]
    · simp only [countSet, countGet, if_neg h]
      exact ih

theorem countGet_countSet_ne (sc : List (String × Nat)) (k k' : String) (v : Nat)
    (h : k ≠ k') : countGet (countSet sc k v) k' = countGet sc k' := by
  induction sc with
  | nil => simp [countSet, countGet, h]
  | cons p rest ih =>
    obtain ⟨k0, v0⟩ := p
    by_cases h0 : k0 = k
    · subst h0
      simp [countSet, countGet, h]
    · simp only [countSet, countGet, if_neg h0]
      split_ifs with h1
      · rfl
      · exact ih

theorem demoteGo_entries_cons (l : String) (rest : List String) (ic : Bool)
    (sc : List (String × Nat)) (fh : Option String) :
    (∃ ic' fh', (demoteGo ic sc fh (l :: rest)).2.1 = (demoteGo ic' sc fh' rest).2.1) ∨
    (∃ fh' text,
      (demoteGo ic sc fh (l :: rest)).2.1 =
        (text, mkSlugId (baseOf text) (countGet sc (baseOf text))) ::
          (demoteGo ic
            (countSet sc (baseOf text) (countGet sc (baseOf text) + 1)) fh' rest).2.1) := by
  simp only [demoteGo]
  split_ifs with h1 h2
  · exact Or.inl ⟨!ic, fh, rfl⟩
  · exact Or.inl ⟨ic, fh, rfl⟩
  · cases hm : headingMatch l with
    | none => exact Or.inl ⟨ic, fh, by simp [hm]⟩
    | some p =>
      obtain ⟨lvl, raw⟩ := p
      simp only [hm]
      by_cases h3 : (if lvl = 1 then 2 else lvl) = 2 ∧
          ¬tocName (pyRstripColon (pyLower (pyStrip raw)))
      · rw [if_pos h3]
        exact Or.inr ⟨_, pyStrip raw, rfl⟩
      · rw [if_neg h3]
        exact Or.inl ⟨ic, _, rfl⟩

theorem demoteGo_entries (ls : List String) :
    ∀ ic sc fh b,
      (((demoteGo ic sc fh ls).2.1).filter (fun e => entryBase e = b)).map Prod.snd =
        (List.range' (countGet sc b)
          (((demoteGo ic sc fh ls).2.1).filter (fun e => entryBase e = b)).length).map
          (mkSlugId b) := by
  induction ls with
  | nil => intro ic sc fh b; rfl
  | cons l rest ih =>
    intro ic sc fh b
    rcases demoteGo_entries_cons l rest ic sc fh with ⟨ic', fh', heq⟩ | ⟨fh', text, heq⟩
    · rw [heq]
      exact ih ic' sc fh' b
    · rw [heq]
      by_cases hb : entryBase (text, mkSlugId (baseOf text) (countGet sc (baseOf text))) = b
      · have hbase : baseOf text = b := hb
        subst hbase
        rw [List.filter_cons_of_pos (by simpa using hb)]
        simp only [List.map_cons, List.length_cons]
        rw [List.range'_succ]
        simp only [List.map_cons]
        have ih' := ih ic (countSet sc (baseOf text) (countGet sc (baseOf text) + 1)) fh'
          (baseOf text)
        rw [countGet_countSet_self] at ih'
        rw [ih']
      · rw [List.filter_cons_of_neg (by simpa using hb)]
        have hne : baseOf text ≠ b := hb
        have ih' := ih ic (countSet sc (baseOf text) (countGet sc (baseOf text) + 1)) fh' b
        rw [countGet_countSet_ne _ _ _ _ hne] at ih'
        exact ih'

theorem demoteGo_entries_length (ls : List String) :
    ∀ ic sc fh, ((demoteGo ic sc fh ls).2.1).length = qualifyingCount ic ls := by
  induction ls with
  | nil => intro ic sc fh; rfl
  | cons l rest ih =>
    intro ic sc fh
    simp only [demoteGo, qualifyingCount]
    split_ifs with h1 h2
    · simp [ih]
    · simp [ih]
    · cases hm : headingMatch l with
      | none => simp [hm, ih]
      | some p =>
        obtain ⟨lvl, raw⟩ := p
        simp only [hm]
        by_cases h3 : (if lvl = 1 then 2 else lvl) = 2 ∧
            ¬tocName (pyRstripColon (pyLower (pyStrip raw)))
        · rw [if_pos h3, if_pos h3]
          simp [ih]
          omega
        · rw [if_neg h3, if_neg h3]
          simp [ih]

/-- C1 amended: the demotion/TOC pass records exactly one TOC entry per
level-2 heading outside fences (excluding Table of Contents headings);
headings sharing one base slug receive the slugs base, base-1, base-2, …
in first-seen order, which are pairwise distinct within that base slug;
slugs of headings with different base slugs may still collide. -/
theorem c1_slug_assignment :
    (∀ ls : List String, (demote_headings ls).2.1.length = qualifyingCount false ls) ∧
    (∀ (ls : List String) (b : String),
      (((demote_headings ls).2.1).filter (fun e => entryBase e = b)).map Prod.snd =
        (List.range
          ((((demote_headings ls).2.1).filter (fun e => entryBase e = b)).length)).map
          (mkSlugId b)) ∧
    (∀ (ls : List String) (b : String),
      ((((demote_headings ls).2.1).filter (fun e => entryBase e = b)).map Prod.snd).Nodup) := by
  have hmain : ∀ (ls : List String) (b : String),
      (((demote_headings ls).2.1).filter (fun e => entryBase e = b)).map Prod.snd =
        (List.range
          ((((demote_headings ls).2.1).filter (fun e => entryBase e = b)).length)).map
          (mkSlugId b) := by
    intro ls b
    have h := demoteGo_entries ls false [] none b
    rw [show countGet [] b = 0 from rfl] at h
    rw [List.range_eq_range']
    exact h
  refine ⟨fun ls => demoteGo_entries_length ls false [] none, hmain, ?_⟩
  intro ls b
  rw [hmain ls b]
  exact List.Nodup.map (fun c c' => mkSlugId_inj b c c') (List.nodup_range _)

/-! ### C2 development: string-level facts -/

theorem lstripL_cons_of_ws (c : Char) (l : List Char) (h : wsC c = true) :
    lstripL (c :: l) = lstripL l := by
  simp [lstripL, List.dropWhile_cons, h]

theorem lstripL_cons_of_not (c : Char) (l : List Char) (h : wsC c = false) :
    lstripL (c :: l) = c :: l := by
  simp [lstripL, List.dropWhile_cons, h]

theorem rstripL_length_le (l : List Char) : (rstripL l).length ≤ l.length := by
  simpa [rstripL] using (List.dropWhile_sublist (l := l.reverse) (p := wsC)).length_le

theorem lstripL_length_le (l : List Char) : (lstripL l).length ≤ l.length :=
  (List.dropWhile_sublist (l := l) (p := wsC)).length_le

theorem lstripL_of_strip (l : List Char) (h : stripL l = l) : lstripL l = l := by
  have h1 : l.length ≤ (lstripL l).length := by
    calc l.length = (stripL l).length := by rw [h]
    _ ≤ (lstripL l).length := rstripL_length_le _
  exact (List.dropWhile_sublist (l := l) (p := wsC)).eq_of_length
    (Nat.le_antisymm (lstripL_length_le l) h1)

theorem rstripL_of_strip (l : List Char) (h : stripL l = l) : rstripL l = l := by
  have h2 := lstripL_of_strip l h
  calc rstripL l = rstripL (lstripL l) := by rw [h2]
  _ = l := h

theorem head_not_ws (c : Char) (cs : List Char) (h : lstripL (c :: cs) = c :: cs) :
    wsC c = false := by
  by_contra hw
  rw [Bool.not_eq_false] at hw
  rw [lstripL_cons_of_ws c cs hw] at h
  have := lstripL_length_le cs
  have := congrArg List.length h
  simp at this
  omega

theorem lstripL_append_of_strip (l t : List Char) (h : lstripL l = l) (hne : l ≠ []) :
    lstripL (l ++ t) = l ++ t := by
  cases l with
  | nil => exact absurd rfl hne
  | cons c cs =>
    have hc := head_not_ws c cs h
    simp [lstripL, List.dropWhile_cons, hc]

theorem reverse_dropWhile_of_rstrip (l : List Char) (h : rstripL l = l) :
    l.reverse.dropWhile wsC = l.reverse := by
  have := congrArg List.reverse h
  simpa [rstripL] using this

theorem rstripL_append_of_strip (t l : List Char) (h : rstripL l = l) (hne : l ≠ []) :
    rstripL (t ++ l) = t ++ l := by
  have h' := reverse_dropWhile_of_rstrip l h
  have hne' : l.reverse ≠ [] := by simpa using hne
  cases hrev : l.reverse with
  | nil => exact absurd hrev hne'
  | cons c cs =>
    rw [hrev] at h'
    have hc := head_not_ws c cs h'
    have : (t ++ l).reverse.dropWhile wsC = (t ++ l).reverse := by
      rw [List.reverse_append, hrev]
      simp [List.dropWhile_cons, hc]
    calc rstripL (t ++ l) = ((t ++ l).reverse.dropWhile wsC).reverse := rfl
    _ = (t ++ l).reverse.reverse := by rw [this]
    _ = t ++ l := by simp

theorem stripL_sandwich (l t r : List Char) (hl : stripL l = l) (hlne : l ≠ [])
    (hr : stripL r = r) (hrne : r ≠ []) :
    stripL (l ++ t ++ r) = l ++ t ++ r := by
  have h1 : lstripL (l ++ (t ++ r)) = l ++ (t ++ r) :=
    lstripL_append_of_strip l (t ++ r) (lstripL_of_strip l hl) hlne
  have h2 : rstripL ((l ++ t) ++ r) = (l ++ t) ++ r :=
    rstripL_append_of_strip (l ++ t) r (rstripL_of_strip r hr) hrne
  calc stripL (l ++ t ++ r) = rstripL (lstripL (l ++ t ++ r)) := rfl
  _ = rstripL (l ++ t ++ r) := by rw [List.append_assoc, h1, ← List.append_assoc]
  _ = l ++ t ++ r := h2

theorem hashLead_false (c : Char) (cs t : List Char)
    (h : List.isPrefixOf ['#'] (c :: cs) = false) :
    List.isPrefixOf ['#'] (c :: cs ++ t) = false := by
  simp [List.isPrefixOf] at h ⊢
  exact h

theorem dashLead_false (k t : List Char) (h : List.isPrefixOf ['-', ' '] k = false)
    (hne : k ≠ []) : List.isPrefixOf ['-', ' '] (k ++ ':' :: t) = false := by
  match k with
  | [] => exact absurd rfl hne
  | [c] =>
    simp [List.isPrefixOf]
  | c :: c2 :: cs =>
    simp [List.isPrefixOf] at h ⊢
    exact h

theorem takeWhile_append_colon (l t : List Char) (h : ∀ c ∈ l, c ≠ ':') :
    (l ++ ':' :: t).takeWhile (fun c => c ≠ ':') = l := by
  induction l with
  | nil => simp [List.takeWhile_cons]
  | cons c cs ih =>
    rw [List.cons_append, List.takeWhile_cons,
      if_pos (by simpa using h c (List.mem_cons_self c cs)),
      ih (fun x hx => h x (List.mem_cons_of_mem c hx))]

theorem dropWhile_append_colon (l t : List Char) (h : ∀ c ∈ l, c ≠ ':') :
    (l ++ ':' :: t).dropWhile (fun c => c ≠ ':') = ':' :: t := by
  induction l with
  | nil => simp [List.dropWhile_cons]
  | cons c cs ih =>
    rw [List.cons_append, List.dropWhile_cons,
      if_pos (by simpa using h c (List.mem_cons_self c cs)),
      ih (fun x hx => h x (List.mem_cons_of_mem c hx))]

theorem not_hasChar_forall (s : String) (a : Char) (h : pyHasChar s a = false) :
    ∀ c ∈ s.data, c ≠ a := by
  intro c hc
  simp [pyHasChar] at h
  intro he
  exact absurd (he ▸ hc) h

theorem dictGet_dictSet_self (m : FmDict) (k : String) (v : YamlValue) :
    dictGet (dictSet m k v) k = some v := by
  induction m with
  | nil => simp [dictSet, dictGet]
  | cons p rest ih =>
    by_cases h : p.1 = k
    · simp [dictSet, dictGet, h]
    · simp [dictSet, dictGet, h, ih]

theorem dictSet_dictSet (m : FmDict) (k : String) (v v' : YamlValue) :
    dictSet (dictSet m k v) k v' = dictSet m k v' := by
  induction m with
  | nil => simp [dictSet]
  | cons p rest ih =>
    by_cases h : p.1 = k
    · simp [dictSet, h]
    · simp [dictSet, h, ih]

theorem dictSet_eq_of_get (m : FmDict) (k : String) (v : YamlValue)
    (h : dictGet m k = some v) : dictSet m k v = m := by
  induction m with
  | nil => simp [dictGet] at h
  | cons p rest ih =>
    obtain ⟨pk, pv⟩ := p
    by_cases hk : pk = k
    · simp [dictGet, hk] at h
      simp [dictSet, hk, ← h]
    · simp [dictGet, hk] at h
      simp [dictSet, hk, ih h]

theorem dictSet_fresh (m : FmDict) (k : String) (v : YamlValue)
    (h : k ∉ dictKeys m) : dictSet m k v = m ++ [(k, v)] := by
  induction m with
  | nil => simp [dictSet]
  | cons p rest ih =>
    simp [dictKeys] at h
    simp [dictSet, h.1, ih (by simp [dictKeys, h.2])]
    exact fun he => absurd he.symm h.1

theorem dictGet_mem (m : FmDict) (k : String) (v : YamlValue)
    (h : dictGet m k = some v) : (k, v) ∈ m := by
  induction m with
  | nil => simp [dictGet] at h
  | cons p rest ih =>
    obtain ⟨pk, pv⟩ := p
    by_cases hk : pk = k
    · simp [dictGet, hk] at h
      subst hk
      subst h
      exact List.mem_cons_self _ _
    · simp [dictGet, hk] at h
      exact List.mem_cons_of_mem _ (ih h)

theorem dictGet_map_self (f : String → YamlValue) (d : List String) (k : String)
    (h : k ∈ d) : dictGet (d.map fun x => (x, f x)) k = some (f k) := by
  induction d with
  | nil => simp at h
  | cons a rest ih =>
    by_cases ha : a = k
    · simp [dictGet, ha]
    · rcases List.mem_cons.mp h with he | hm
      · exact absurd he.symm ha
      · simp [dictGet, ha, ih hm]

theorem parseFmLines_append (st : FmState) (a b : List String) :
    parseFmLines st (a ++ b) =
      match parseFmLines st a with
      | some st' => parseFmLines st' b
      | none => none := by
  induction a generalizing st with
  | nil => simp [parseFmLines]
  | cons l rest ih =>
    simp only [List.cons_append, parseFmLines]
    cases parseFmLine st l with
    | some st' => exact ih st'
    | none => rfl

theorem strEqOfData (a b : String) (h : a.data = b.data) : a = b := by
  cases a
  cases b
  exact congrArg String.mk h

theorem strNeEmpty (s : String) : s ≠ "" ↔ s.data ≠ [] := by
  constructor
  · intro h he
    exact h (strEqOfData s "" he)
  · intro h he
    exact h (congrArg String.data he)

theorem pyStripData (s : String) (h : pyStrip s = s) : stripL s.data = s.data :=
  congrArg String.data h

theorem cleanFmKey_facts (k : String) (h : cleanFmKey k = true) :
    k.data ≠ [] ∧ stripL k.data = k.data ∧ (∀ c ∈ k.data, c ≠ ':') ∧
      List.isPrefixOf ['#'] k.data = false ∧ List.isPrefixOf ['-', ' '] k.data = false := by
  simp only [cleanFmKey, Bool.and_eq_true, decide_eq_true_eq, Bool.not_eq_true',
    Bool.not_eq_true] at h
  obtain ⟨⟨⟨⟨h1, h2⟩, h3⟩, h4⟩, h5⟩ := h
  refine ⟨(strNeEmpty k).mp h1, pyStripData k h2, not_hasChar_forall k ':' h3, h4, h5⟩

theorem needs_quotes_false_facts (s : String) (h : needs_quotes s = false) :
    s.data ≠ [] ∧ stripL s.data = s.data ∧ pyHasChar s '"' = false ∧
      pyHasChar s '\'' = false := by
  simp only [needs_quotes] at h
  split_ifs at h with h1 h2 h3 h4
  simp only [Bool.or_eq_true, decide_eq_true_eq, not_or, Decidable.not_not] at h1
  simp only [Bool.or_eq_true, not_or, Bool.not_eq_true] at h2
  exact ⟨(strNeEmpty s).mp h1.1, pyStripData s h1.2.symm, h2.1.2, h2.2⟩

theorem pyStartsWith_hash_false (k : String) (t : List Char)
    (hne : k.data ≠ []) (hh : List.isPrefixOf ['#'] k.data = false) :
    pyStartsWith ⟨k.data ++ t⟩ "#" = false := by
  cases hd : k.data with
  | nil => exact absurd hd hne
  | cons c cs =>
    rw [hd] at hh
    show List.isPrefixOf ['#'] ((c :: cs) ++ t) = false
    exact hashLead_false c cs t hh

theorem pyStartsWith_dash_false (k : String) (t : List Char)
    (hne : k.data ≠ []) (hd : List.isPrefixOf ['-', ' '] k.data = false) :
    pyStartsWith ⟨k.data ++ ':' :: t⟩ "- " = false := by
  show List.isPrefixOf ['-', ' '] (k.data ++ ':' :: t) = false
  exact dashLead_false k.data t hd hne

theorem parseFmLine_keyline (st : FmState) (k w : String) (hk : cleanFmKey k = true)
    (hw : pyStrip w = w) (hwne : w ≠ "") :
    parseFmLine st (k ++ ": " ++ w) =
      some (if (pyStartsWith w "\"" && pyEndsWith w "\"") ||
                (pyStartsWith w "'" && pyEndsWith w "'") then
              { metadata := dictSet st.metadata k (.scalar ⟨(w.data.drop 1).dropLast⟩),
                order := if st.order.contains k then st.order else st.order ++ [k],
                quoted := addIfAbsent st.quoted k, currentKey := some k }
            else
              { metadata := dictSet st.metadata k (.scalar w),
                order := if st.order.contains k then st.order else st.order ++ [k],
                quoted := st.quoted, currentKey := some k }) := by
  obtain ⟨hne, hstrip, hcolon, hhash, hdash⟩ := cleanFmKey_facts k hk
  have hwdata : stripL w.data = w.data := pyStripData w hw
  have hwne' : w.data ≠ [] := (strNeEmpty w).mp hwne
  have hdata : (k ++ ": " ++ w).data = k.data ++ ':' :: ' ' :: w.data := by
    show (k.data ++ [':', ' ']) ++ w.data = k.data ++ ':' :: ' ' :: w.data
    simp
  have hstripline : pyStrip (k ++ ": " ++ w) = k ++ ": " ++ w := by
    apply strEqOfData
    show stripL (k ++ ": " ++ w).data = (k ++ ": " ++ w).data
    rw [hdata]
    have := stripL_sandwich k.data [':', ' '] w.data hstrip hne hwdata hwne'
    rw [List.append_assoc] at this
    simpa using this
  have hlinene : (k ++ ": " ++ w) ≠ "" := by
    rw [strNeEmpty, hdata]
    simp [hne]
  have hhashline : pyStartsWith (k ++ ": " ++ w) "#" = false := by
    have := pyStartsWith_hash_false k (':' :: ' ' :: w.data) hne hhash
    rw [show (⟨k.data ++ ':' :: ' ' :: w.data⟩ : String) = k ++ ": " ++ w from
      strEqOfData _ _ hdata.symm] at this
    exact this
  have hdashline : pyStartsWith (k ++ ": " ++ w) "- " = false := by
    have := pyStartsWith_dash_false k (' ' :: w.data) hne hdash
    rw [show (⟨k.data ++ ':' :: ' ' :: w.data⟩ : String) = k ++ ": " ++ w from
      strEqOfData _ _ hdata.symm] at this
    exact this
  have hhc : pyHasChar (k ++ ": " ++ w) ':' = true := by
    show ((k ++ ": " ++ w).data).contains ':' = true
    rw [hdata]
    simp
  have htake : (k ++ ": " ++ w).data.takeWhile (· ≠ ':') = k.data := by
    rw [hdata]
    exact takeWhile_append_colon k.data (' ' :: w.data) hcolon
  have hdrop : (k ++ ": " ++ w).data.dropWhile (· ≠ ':') = ':' :: ' ' :: w.data := by
    rw [hdata]
    exact dropWhile_append_colon k.data (' ' :: w.data) hcolon
  have hkey : pyStrip ⟨(k ++ ": " ++ w).data.takeWhile (· ≠ ':')⟩ = k := by
    rw [htake]
    show pyStrip k = k
    exact strEqOfData (pyStrip k) k hstrip
  have hvalue : pyStrip ⟨((k ++ ": " ++ w).data.dropWhile (· ≠ ':')).drop 1⟩ = w := by
    rw [hdrop]
    show (⟨stripL (' ' :: w.data)⟩ : String) = w
    apply strEqOfData
    show stripL (' ' :: w.data) = w.data
    calc stripL (' ' :: w.data) = rstripL (lstripL (' ' :: w.data)) := rfl
    _ = rstripL (lstripL w.data) := by rw [lstripL_cons_of_ws ' ' w.data (by decide)]
    _ = w.data := by
        rw [lstripL_of_strip w.data hwdata]
        exact rstripL_of_strip w.data hwdata
  have hkne : k ≠ "" := (strNeEmpty k).mpr hne
  simp only [parseFmLine, hstripline, hhashline, hdashline, hhc, hkey, hvalue]
  simp [hlinene, hkne, hwne]
  split_ifs <;> rfl

theorem startsWith_char_false (s : String) (a : Char) (hne : s.data ≠ [])
    (h : ∀ c ∈ s.data, c ≠ a) : List.isPrefixOf [a] s.data = false := by
  cases hd : s.data with
  | nil => exact absurd hd hne
  | cons c cs =>
    have hc := h c (by rw [hd]; exact List.mem_cons_self c cs)
    simp [List.isPrefixOf, beq_iff_eq]
    exact fun he => hc he.symm

theorem parseFmLine_plainline (st : FmState) (k s : String) (hk : cleanFmKey k = true)
    (hs : needs_quotes s = false) :
    parseFmLine st (k ++ ": " ++ s) =
      some { metadata := dictSet st.metadata k (.scalar s),
             order := if st.order.contains k then st.order else st.order ++ [k],
             quoted := st.quoted, currentKey := some k } := by
  obtain ⟨hne, hstrip, hdq, hsq⟩ := needs_quotes_false_facts s hs
  have h1 : pyStartsWith s "\"" = false :=
    startsWith_char_false s '"' hne (not_hasChar_forall s '"' hdq)
  have h2 : pyStartsWith s "'" = false :=
    startsWith_char_false s '\'' hne (not_hasChar_forall s '\'' hsq)
  rw [parseFmLine_keyline st k s hk (strEqOfData _ _ hstrip) ((strNeEmpty s).mpr hne)]
  rw [if_neg]
  simp [h1, h2]

theorem parseFmLine_quotedline (st : FmState) (k s : String) (hk : cleanFmKey k = true) :
    parseFmLine st (k ++ ": " ++ ("\"" ++ s ++ "\"")) =
      some { metadata := dictSet st.metadata k (.scalar s),
             order := if st.order.contains k then st.order else st.order ++ [k],
             quoted := addIfAbsent st.quoted k, currentKey := some k } := by
  have hwdata : ("\"" ++ s ++ "\"").data = '"' :: s.data ++ ['"'] := by
    show (['"'] ++ s.data) ++ ['"'] = _
    simp
  have hwne : ("\"" ++ s ++ "\"") ≠ "" := by
    rw [strNeEmpty, hwdata]
    simp
  have hwstrip : pyStrip ("\"" ++ s ++ "\"") = "\"" ++ s ++ "\"" := by
    apply strEqOfData
    show stripL ("\"" ++ s ++ "\"").data = ("\"" ++ s ++ "\"").data
    rw [hwdata]
    have := stripL_sandwich ['"'] s.data ['"'] (by decide) (by decide) (by decide) (by decide)
    simpa using this
  have hstartq : pyStartsWith ("\"" ++ s ++ "\"") "\"" = true := by
    show List.isPrefixOf ['"'] ("\"" ++ s ++ "\"").data = true
    rw [hwdata]
    simp [List.isPrefixOf]
  have hendq : pyEndsWith ("\"" ++ s ++ "\"") "\"" = true := by
    show List.isPrefixOf ['"'].reverse ("\"" ++ s ++ "\"").data.reverse = true
    rw [hwdata]
    simp [List.isPrefixOf]
  rw [parseFmLine_keyline st k _ hk hwstrip hwne]
  rw [if_pos (by simp [hstartq, hendq])]
  have hval : (("\"" ++ s ++ "\"").data.drop 1).dropLast = s.data := by
    rw [hwdata]
    simp
  rw [hval]

theorem parseFmLine_header (st : FmState) (k : String) (hk : cleanFmKey k = true) :
    parseFmLine st (k ++ ":") = some
      { metadata := dictSet st.metadata k (.items []),
        order := if st.order.contains k then st.order else st.order ++ [k],
        quoted := st.quoted, currentKey := some k } := by
  obtain ⟨hne, hstrip, hcolon, hhash, hdash⟩ := cleanFmKey_facts k hk
  have hdata : (k ++ ":").data = k.data ++ ':' :: [] := rfl
  have hstripline : pyStrip (k ++ ":") = k ++ ":" := by
    apply strEqOfData
    show stripL (k ++ ":").data = (k ++ ":").data
    rw [hdata]
    have := stripL_sandwich k.data [] [':'] hstrip hne (by decide) (by decide)
    simpa using this
  have hlinene : (k ++ ":") ≠ "" := by
    rw [strNeEmpty, hdata]
    simp
  have hhashline : pyStartsWith (k ++ ":") "#" = false := by
    have := pyStartsWith_hash_false k (':' :: []) hne hhash
    rw [show (⟨k.data ++ ':' :: []⟩ : String) = k ++ ":" from strEqOfData _ _ hdata.symm]
      at this
    exact this
  have hdashline : pyStartsWith (k ++ ":") "- " = false := by
    have := pyStartsWith_dash_false k [] hne hdash
    rw [show (⟨k.data ++ ':' :: []⟩ : String) = k ++ ":" from strEqOfData _ _ hdata.symm]
      at this
    exact this
  have hhc : pyHasChar (k ++ ":") ':' = true := by
    show ((k ++ ":").data).contains ':' = true
    rw [hdata]
    simp
  have htake : (k ++ ":").data.takeWhile (· ≠ ':') = k.data := by
    rw [hdata]
    exact takeWhile_append_colon k.data [] hcolon
  have hdrop : (k ++ ":").data.dropWhile (· ≠ ':') = ':' :: [] := by
    rw [hdata]
    exact dropWhile_append_colon k.data [] hcolon
  have hkey : pyStrip ⟨(k ++ ":").data.takeWhile (· ≠ ':')⟩ = k := by
    rw [htake]
    show pyStrip k = k
    exact strEqOfData (pyStrip k) k hstrip
  have hvalue : pyStrip ⟨((k ++ ":").data.dropWhile (· ≠ ':')).drop 1⟩ = "" := by
    rw [hdrop]
    decide
  have hkne : k ≠ "" := (strNeEmpty k).mpr hne
  simp only [parseFmLine, hstripline, hhashline, hdashline, hhc, hkey, hvalue]
  simp [hlinene, hkne]

theorem parseFmLine_item (st : FmState) (ck : String) (acc : List String) (x : String)
    (hck : st.currentKey = some ck) (hm : dictGet st.metadata ck = some (.items acc))
    (hx : needs_quotes x = false) :
    parseFmLine st ("  - " ++ x) =
      some { st with metadata := dictSet st.metadata ck (.items (acc ++ [x])) } := by
  obtain ⟨hne, hstrip, _, _⟩ := needs_quotes_false_facts x hx
  have hdata : ("  - " ++ x).data = ' ' :: ' ' :: '-' :: ' ' :: x.data := rfl
  have hstripline : pyStrip ("  - " ++ x) = ⟨'-' :: ' ' :: x.data⟩ := by
    apply strEqOfData
    show stripL ("  - " ++ x).data = '-' :: ' ' :: x.data
    rw [hdata]
    calc stripL (' ' :: ' ' :: '-' :: ' ' :: x.data)
        = rstripL (lstripL (' ' :: ' ' :: '-' :: ' ' :: x.data)) := rfl
    _ = rstripL ('-' :: ' ' :: x.data) := by
        rw [lstripL_cons_of_ws _ _ (by decide), lstripL_cons_of_ws _ _ (by decide),
          lstripL_cons_of_not _ _ (by decide)]
    _ = '-' :: ' ' :: x.data := by
        have := rstripL_append_of_strip ['-', ' '] x.data (rstripL_of_strip x.data hstrip) hne
        simpa using this
  have hsne : (⟨'-' :: ' ' :: x.data⟩ : String) ≠ "" := by
    rw [strNeEmpty]
    simp
  have hhash2 : pyStartsWith (⟨'-' :: ' ' :: x.data⟩ : String) "#" = false := by
    show List.isPrefixOf ['#'] ('-' :: ' ' :: x.data) = false
    simp [List.isPrefixOf]
  have hdash2 : pyStartsWith (⟨'-' :: ' ' :: x.data⟩ : String) "- " = true := by
    show List.isPrefixOf ['-', ' '] ('-' :: ' ' :: x.data) = true
    simp [List.isPrefixOf]
  have hitem : pyStrip ⟨('-' :: ' ' :: x.data).drop 2⟩ = x := by
    show pyStrip ⟨x.data⟩ = x
    exact strEqOfData _ _ hstrip
  simp only [parseFmLine, hstripline, hhash2, hdash2, hsne, hck, hm, hitem]
  simp [hsne]

theorem escapeDq_data (l : List Char) (h : ∀ c ∈ l, c ≠ '"') :
    (l.map fun c => if c = '"' then ['\\', '"'] else [c]).flatten = l := by
  induction l with
  | nil => rfl
  | cons c cs ih =>
    simp only [List.map_cons, List.flatten_cons,
      if_neg (h c (List.mem_cons_self c cs)),
      ih (fun x hx => h x (List.mem_cons_of_mem c hx))]
    rfl

theorem escapeDq_id (s : String) (h : pyHasChar s '"' = false) : escapeDq s = s := by
  apply strEqOfData
  show (s.data.map fun c => if c = '"' then ['\\', '"'] else [c]).flatten = s.data
  exact escapeDq_data s.data (not_hasChar_forall s '"' h)

theorem parseFmLines_items (k : String) (xs : List String) :
    ∀ (st : FmState) (acc : List String),
    st.currentKey = some k → dictGet st.metadata k = some (.items acc) →
    (∀ x ∈ xs, needs_quotes x = false) →
    parseFmLines st (xs.map (fun x => "  - " ++ x)) =
      some { st with metadata := dictSet st.metadata k (.items (acc ++ xs)) } := by
  induction xs with
  | nil =>
    intro st acc hck hm _
    show some st = _
    rw [List.append_nil, dictSet_eq_of_get _ _ _ hm]
  | cons x rest ih =>
    intro st acc hck hm hxs
    simp only [List.map_cons, parseFmLines,
      parseFmLine_item st k acc x hck hm (hxs x (List.mem_cons_self x rest))]
    rw [ih _ (acc ++ [x]) (by simp [hck]) (by simp [dictGet_dictSet_self])
      (fun y hy => hxs y (List.mem_cons_of_mem x hy))]
    simp [dictSet_dictSet]

theorem parseFmLines_renderEntry (st : FmState) (metadata : FmDict) (quoted : List String)
    (k : String) (hk : cleanFmKey k = true)
    (hv : ∀ v, dictGet metadata k = some v → cleanFmValue v = true) :
    parseFmLines st (renderFmEntry metadata quoted k) =
      some (parseStep metadata quoted st k) := by
  cases hg : dictGet metadata k with
  | none =>
    have hfmt : format_scalar_value none (quoted.contains k) = "\"" ++ ("" : String) ++ "\"" := by
      cases hqc : quoted.contains k <;> decide
    simp only [renderFmEntry, hg, hfmt, parseFmLines]
    rw [parseFmLine_quotedline st k "" hk]
    simp [parseFmLines, parseStep, parsedEntryValue, parsedEntryQuoted, hg]
  | some v =>
    cases v with
    | scalar s =>
      have hcv := hv _ hg
      have hdq : pyHasChar s '"' = false := by
        simpa [cleanFmValue] using hcv
      cases hb : (quoted.contains k || needs_quotes s) with
      | false =>
        have hqc : quoted.contains k = false := by
          cases hqc : quoted.contains k
          · rfl
          · rw [hqc] at hb
            simp at hb
        have hnq : needs_quotes s = false := by
          cases hnq : needs_quotes s
          · rfl
          · rw [hnq] at hb
            simp at hb
        have hqc' : k ∉ quoted := by simpa using hqc
        have hfmt : format_scalar_value (some s) (quoted.contains k) = s := by
          simp [format_scalar_value, hqc', hnq]
        simp only [renderFmEntry, hg, hfmt, parseFmLines]
        rw [parseFmLine_plainline st k s hk hnq]
        simp [parseFmLines, parseStep, parsedEntryValue, parsedEntryQuoted, hg, hqc', hnq]
      | true =>
        have hfmt : format_scalar_value (some s) (quoted.contains k) = "\"" ++ s ++ "\"" := by
          simp only [format_scalar_value]
          rw [if_pos (by simpa using hb), escapeDq_id s hdq]
        have hb' : k ∈ quoted ∨ needs_quotes s = true := by simpa using hb
        simp only [renderFmEntry, hg, hfmt, parseFmLines]
        rw [parseFmLine_quotedline st k s hk]
        simp [parseFmLines, parseStep, parsedEntryValue, parsedEntryQuoted, hg, hb']
    | items xs =>
      have hcv := hv _ hg
      have hxs : ∀ x ∈ xs, needs_quotes x = false := by
        simpa [cleanFmValue, List.all_eq_true] using hcv
      have hmap : xs.map (fun item => "  - " ++ format_scalar_value (some item) false)
          = xs.map (fun item => "  - " ++ item) := by
        apply List.map_congr_left
        intro x hx
        simp [format_scalar_value, hxs x hx]
      have hstep := parseFmLines_items k xs
        { metadata := dictSet st.metadata k (.items []),
          order := if st.order.contains k then st.order else st.order ++ [k],
          quoted := st.quoted, currentKey := some k } [] rfl
        (dictGet_dictSet_self _ _ _) hxs
      simp only [renderFmEntry, hg, hmap, List.cons_append, parseFmLines,
        parseFmLine_header st k hk]
      rw [hstep]
      simp [parseStep, parsedEntryValue, parsedEntryQuoted, hg, dictSet_dictSet]

theorem contains_false_not_mem (l : List String) (a : String)
    (h : l.contains a = false) : a ∉ l := by
  intro hm
  have h2 : l.contains a = true := List.elem_iff.mpr hm
  rw [h2] at h
  exact Bool.noConfusion h

theorem not_mem_contains_false (l : List String) (a : String) (h : a ∉ l) :
    l.contains a = false := by
  cases hc : l.contains a
  · rfl
  · have h2 : l.elem a = true := hc
    exact absurd (List.elem_iff.mp h2) h

theorem parseFmLines_serFmGo (metadata : FmDict) (quoted : List String) (ks : List String) :
    ∀ (seen : List String) (st : FmState),
    (∀ k ∈ ks, cleanFmKey k = true) →
    (∀ p ∈ metadata, cleanFmValue p.2 = true) →
    parseFmLines st (serFmGo metadata quoted seen ks) =
      some ((dedupSeen seen ks).foldl (parseStep metadata quoted) st) := by
  induction ks with
  | nil =>
    intro seen st _ _
    rfl
  | cons k rest ih =>
    intro seen st hks hmet
    by_cases hs : seen.contains k = true
    · simp only [serFmGo, dedupSeen, if_pos hs]
      exact ih seen st (fun x hx => hks x (List.mem_cons_of_mem k hx)) hmet
    · rw [Bool.not_eq_true] at hs
      simp only [serFmGo, dedupSeen, hs, Bool.false_eq_true, if_false]
      rw [parseFmLines_append,
        parseFmLines_renderEntry st metadata quoted k (hks k (List.mem_cons_self k rest))
          (fun v hv => hmet (k, v) (dictGet_mem metadata k v hv))]
      show parseFmLines (parseStep metadata quoted st k)
          (serFmGo metadata quoted (k :: seen) rest) = _
      rw [ih (k :: seen) (parseStep metadata quoted st k)
        (fun x hx => hks x (List.mem_cons_of_mem k hx)) hmet]
      simp [List.foldl_cons]

theorem serFmGo_eq_flatten (metadata : FmDict) (quoted : List String) (ks : List String) :
    ∀ seen, serFmGo metadata quoted seen ks =
      ((dedupSeen seen ks).map (renderFmEntry metadata quoted)).flatten := by
  induction ks with
  | nil =>
    intro seen
    rfl
  | cons k rest ih =>
    intro seen
    by_cases hs : seen.contains k = true
    · simp only [serFmGo, dedupSeen, if_pos hs]
      exact ih seen
    · rw [Bool.not_eq_true] at hs
      simp only [serFmGo, dedupSeen, hs, Bool.false_eq_true, if_false]
      rw [ih (k :: seen)]
      simp

theorem dedupSeen_nodup_fresh (ks : List String) :
    ∀ seen, (dedupSeen seen ks).Nodup ∧ ∀ k ∈ dedupSeen seen ks, k ∉ seen := by
  induction ks with
  | nil =>
    intro seen
    simp [dedupSeen]
  | cons k rest ih =>
    intro seen
    by_cases hs : seen.contains k = true
    · simpa only [dedupSeen, if_pos hs] using ih seen
    · rw [Bool.not_eq_true] at hs
      simp only [dedupSeen, hs, Bool.false_eq_true, if_false]
      obtain ⟨hnd, hfr⟩ := ih (k :: seen)
      refine ⟨List.nodup_cons.mpr ⟨fun hmem => ?_, hnd⟩, ?_⟩
      · exact hfr k hmem (List.mem_cons_self k seen)
      · intro x hx
        rcases List.mem_cons.mp hx with he | hm
        · subst he
          exact contains_false_not_mem seen x hs
        · intro hmem
          exact hfr x hm (List.mem_cons_of_mem k hmem)

theorem dedupSeen_mem_sub (ks : List String) :
    ∀ seen k, k ∈ dedupSeen seen ks → k ∈ ks := by
  induction ks with
  | nil =>
    intro seen k h
    simp [dedupSeen] at h
  | cons a rest ih =>
    intro seen k h
    by_cases hs : seen.contains a = true
    · rw [dedupSeen, if_pos hs] at h
      exact List.mem_cons_of_mem a (ih seen k h)
    · rw [Bool.not_eq_true] at hs
      rw [dedupSeen] at h
      simp only [hs, Bool.false_eq_true, if_false] at h
      rcases List.mem_cons.mp h with he | hm
      · subst he
        exact List.mem_cons_self k rest
      · exact List.mem_cons_of_mem a (ih (a :: seen) k hm)

theorem dedupSeen_of_nodup (d : List String) (hd : d.Nodup) :
    dedupSeen [] d = d := by
  have main : ∀ (l : List String) (seen : List String), l.Nodup →
      (∀ k ∈ l, k ∉ seen) → dedupSeen seen l = l := by
    intro l
    induction l with
    | nil =>
      intro seen _ _
      rfl
    | cons a rest ih =>
      intro seen hnd hfr
      have ha : seen.contains a = false :=
        not_mem_contains_false seen a (hfr a (List.mem_cons_self a rest))
      rw [dedupSeen]
      simp only [ha, Bool.false_eq_true, if_false]
      rw [ih (a :: seen) (List.nodup_cons.mp hnd).2]
      intro x hx
      intro hmem
      rcases List.mem_cons.mp hmem with he | hm
      · exact (List.nodup_cons.mp hnd).1 (he ▸ hx)
      · exact hfr x (List.mem_cons_of_mem a hx) hm
  exact main d [] hd (by simp)

theorem foldl_parseStep_closed (metadata : FmDict) (quoted : List String) (d : List String) :
    ∀ st : FmState, d.Nodup →
    (∀ k ∈ d, k ∉ dictKeys st.metadata ∧ k ∉ st.order ∧ k ∉ st.quoted) →
    (d.foldl (parseStep metadata quoted) st).metadata
        = st.metadata ++ d.map (fun k => (k, parsedEntryValue metadata k)) ∧
    (d.foldl (parseStep metadata quoted) st).order = st.order ++ d ∧
    (d.foldl (parseStep metadata quoted) st).quoted
        = st.quoted ++ d.filter (parsedEntryQuoted metadata quoted) := by
  induction d with
  | nil =>
    intro st _ _
    simp
  | cons k rest ih =>
    intro st hnd hfr
    obtain ⟨hk1, hk2, hk3⟩ := hfr k (List.mem_cons_self k rest)
    obtain ⟨hknr, hndr⟩ := List.nodup_cons.mp hnd
    have hcon : st.order.contains k = false := not_mem_contains_false _ _ hk2
    have hset : dictSet st.metadata k (parsedEntryValue metadata k)
        = st.metadata ++ [(k, parsedEntryValue metadata k)] := dictSet_fresh _ _ _ hk1
    have hq : addIfAbsent st.quoted k = st.quoted ++ [k] := by
      rw [addIfAbsent, if_neg]
      rw [not_mem_contains_false _ _ hk3]
      simp
    have hmeta : (parseStep metadata quoted st k).metadata
        = st.metadata ++ [(k, parsedEntryValue metadata k)] := by
      simp [parseStep, hset]
    have hord : (parseStep metadata quoted st k).order = st.order ++ [k] := by
      simp [parseStep, hk2]
    have hqd : (parseStep metadata quoted st k).quoted
        = st.quoted ++ List.filter (parsedEntryQuoted metadata quoted) [k] := by
      simp only [parseStep]
      cases hpq : parsedEntryQuoted metadata quoted k
      · simp [List.filter_cons, hpq]
      · simp [List.filter_cons, hpq, hq]
    have hfr' : ∀ x ∈ rest, x ∉ dictKeys (parseStep metadata quoted st k).metadata ∧
        x ∉ (parseStep metadata quoted st k).order ∧
        x ∉ (parseStep metadata quoted st k).quoted := by
      intro x hx
      obtain ⟨h1, h2, h3⟩ := hfr x (List.mem_cons_of_mem k hx)
      have hne : x ≠ k := fun he => hknr (he ▸ hx)
      refine ⟨?_, ?_, ?_⟩
      · rw [hmeta]
        simp only [dictKeys, List.map_append, List.mem_append]
        rintro (hl | hr)
        · exact h1 (by simpa [dictKeys] using hl)
        · simp at hr
          exact hne hr
      · rw [hord]
        simp only [List.mem_append]
        rintro (hl | hr)
        · exact h2 hl
        · simp at hr
          exact hne hr
      · rw [hqd]
        simp only [List.mem_append]
        rintro (hl | hr)
        · exact h3 hl
        · have := List.mem_of_mem_filter hr
          simp at this
          exact hne this
    simp only [List.foldl_cons]
    obtain ⟨e1, e2, e3⟩ := ih (parseStep metadata quoted st k) hndr hfr'
    refine ⟨?_, ?_, ?_⟩
    · rw [e1, hmeta]
      simp
    · rw [e2, hord]
      simp
    · rw [e3, hqd, List.append_assoc]
      congr 1
      cases hpq : parsedEntryQuoted metadata quoted k <;>
        simp [List.filter_cons, hpq]

theorem contains_filter_of_mem (d : List String) (p : String → Bool) (k : String)
    (h : k ∈ d) : (d.filter p).contains k = p k := by
  cases hp : p k
  · apply not_mem_contains_false
    intro hm
    have h2 := List.of_mem_filter hm
    rw [hp] at h2
    exact Bool.noConfusion h2
  · exact List.elem_iff.mpr (List.mem_filter.mpr ⟨h, hp⟩)

theorem renderFmEntry_parsed (metadata : FmDict) (quoted : List String) (d : List String)
    (k : String) (hkmem : k ∈ d) :
    renderFmEntry (d.map fun x => (x, parsedEntryValue metadata x))
        (d.filter (parsedEntryQuoted metadata quoted)) k
      = renderFmEntry metadata quoted k := by
  have hget := dictGet_map_self (parsedEntryValue metadata) d k hkmem
  have hcont := contains_filter_of_mem d (parsedEntryQuoted metadata quoted) k hkmem
  have h0 : needs_quotes "" = true := by decide
  cases hg : dictGet metadata k with
  | none =>
    have hpv : parsedEntryValue metadata k = .scalar "" := by
      simp [parsedEntryValue, hg]
    have hpq : parsedEntryQuoted metadata quoted k = true := by
      simp [parsedEntryQuoted, hg]
    rw [hpv] at hget
    rw [hpq] at hcont
    simp only [renderFmEntry, hget, hcont, hg]
    simp [format_scalar_value, h0]
  | some v =>
    cases v with
    | scalar s =>
      have hpv : parsedEntryValue metadata k = .scalar s := by
        simp [parsedEntryValue, hg]
      have hpq : parsedEntryQuoted metadata quoted k
          = (quoted.contains k || needs_quotes s) := by
        simp [parsedEntryQuoted, hg]
      rw [hpv] at hget
      rw [hpq] at hcont
      simp only [renderFmEntry, hget, hcont, hg, format_scalar_value]
      rw [Bool.or_assoc, Bool.or_self]
    | items xs =>
      have hpv : parsedEntryValue metadata k = .items xs := by
        simp [parsedEntryValue, hg]
      rw [hpv] at hget
      simp only [renderFmEntry, hget, hg]

theorem filter_not_contains_self (d : List String) :
    d.filter (fun x => !d.contains x) = [] := by
  rw [List.filter_eq_nil_iff]
  intro a ha
  simpa using ha

theorem parse_fm_framed (body : List String) (st : FmState)
    (h : parseFmLines ⟨[], [], [], none⟩ body = some st) :
    parse_front_matter_block ("---" :: body ++ ["---"]) =
      some (st.metadata, st.order, st.quoted) := by
  have h2 : ("---" :: (body ++ ["---"])).getLast? = some "---" := by
    have he : ("---" :: (body ++ ["---"])) = ("---" :: body) ++ ["---"] := by simp
    rw [he, List.getLast?_concat]
  have h3 : (body ++ ["---"]).dropLast = body := by
    simp
  have hu : parse_front_matter_block ("---" :: body ++ ["---"]) =
      (match ("---" :: (body ++ ["---"])).getLast? with
        | some lN =>
          if pyStrip lN ≠ "---" then none
          else
            match parseFmLines ⟨[], [], [], none⟩ ((body ++ ["---"]).dropLast) with
            | some stp => some (stp.metadata, stp.order, stp.quoted)
            | none => none
        | none => none) := by
    show (if pyStrip ("---" : String) ≠ "---" then none else _) = _
    rw [if_neg (by decide : ¬pyStrip ("---" : String) ≠ "---")]
    rfl
  rw [hu, h2]
  show (if pyStrip ("---" : String) ≠ "---" then none else _) = _
  rw [if_neg (by decide : ¬pyStrip ("---" : String) ≠ "---"), h3, h]

theorem serialize_parsed_eq (metadata : FmDict) (quoted : List String) (d : List String)
    (hnd : d.Nodup) :
    serialize_front_matter (d.map fun x => (x, parsedEntryValue metadata x)) d
        (d.filter (parsedEntryQuoted metadata quoted))
      = "---" :: (d.map (renderFmEntry metadata quoted)).flatten ++ ["---"] := by
  have hkeys : dictKeys (d.map fun x => (x, parsedEntryValue metadata x)) = d := by
    simp only [dictKeys, List.map_map]
    have hcomp : (Prod.fst ∘ fun x => (x, parsedEntryValue metadata x))
        = fun a : String => a := rfl
    rw [hcomp, List.map_id']
  simp only [serialize_front_matter]
  rw [hkeys, filter_not_contains_self, List.append_nil,
    serFmGo_eq_flatten _ _ d [], dedupSeen_of_nodup d hnd,
    List.map_congr_left (fun k hk => renderFmEntry_parsed metadata quoted d k hk)]

/-- C2 counterexample: the serializer quotes the list item `a: b` (it
contains a colon), but the parser keeps the surrounding quotes as part of
the item, so re-serializing escapes them: the round trip is not a fixed
point on serialized output. -/
theorem c2_counterexample :
    serialize_front_matter [("k", YamlValue.items ["a: b"])] ["k"] [] =
      ["---", "k:", "  - \"a: b\"", "---"] ∧
    parse_front_matter_block ["---", "k:", "  - \"a: b\"", "---"] =
      some ([("k", YamlValue.items ["\"a: b\""])], ["k"], []) ∧
    serialize_front_matter [("k", YamlValue.items ["\"a: b\""])] ["k"] [] ≠
      ["---", "k:", "  - \"a: b\"", "---"] := by
  decide

/-- C2 amended: when every key (in the order list or the metadata dict) is
nonempty, already stripped, free of colons and not opening a comment or a
list item, every scalar value is free of double quotes, and every list item
needs no quoting, then parsing the serialized front matter succeeds and
re-serializing the parse result reproduces the serialized block line for
line (same key order, same quoting decisions, same list contents); without
these cleanliness conditions the round trip can alter the block. -/
theorem c2_front_matter_roundtrip (metadata : FmDict) (order quoted : List String)
    (hord : ∀ k ∈ order, cleanFmKey k = true)
    (hmet : ∀ p ∈ metadata, cleanFmKey p.1 = true ∧ cleanFmValue p.2 = true) :
    ∃ t : FmDict × List String × List String,
      parse_front_matter_block (serialize_front_matter metadata order quoted) = some t ∧
      serialize_front_matter t.1 t.2.1 t.2.2
        = serialize_front_matter metadata order quoted := by
  have hclean : ∀ k ∈ order ++ (dictKeys metadata).filter (fun k => !order.contains k),
      cleanFmKey k = true := by
    intro k hk
    rcases List.mem_append.mp hk with hko | hkm
    · exact hord k hko
    · have hkm2 := List.mem_of_mem_filter hkm
      simp only [dictKeys] at hkm2
      obtain ⟨p, hp, hpe⟩ := List.mem_map.mp hkm2
      exact hpe ▸ (hmet p hp).1
  have hvals : ∀ p ∈ metadata, cleanFmValue p.2 = true := fun p hp => (hmet p hp).2
  obtain ⟨hnd, -⟩ := dedupSeen_nodup_fresh
    (order ++ (dictKeys metadata).filter (fun k => !order.contains k)) []
  have hbody := parseFmLines_serFmGo metadata quoted
    (order ++ (dictKeys metadata).filter (fun k => !order.contains k)) []
    ⟨[], [], [], none⟩ hclean hvals
  obtain ⟨e1, e2, e3⟩ := foldl_parseStep_closed metadata quoted
    (dedupSeen [] (order ++ (dictKeys metadata).filter (fun k => !order.contains k)))
    ⟨[], [], [], none⟩ hnd (by intro k _; simp [dictKeys])
  simp only [List.nil_append] at e1 e2 e3
  have hparse : parse_front_matter_block (serialize_front_matter metadata order quoted)
      = some ((List.foldl (parseStep metadata quoted) ⟨[], [], [], none⟩
          (dedupSeen [] (order ++ (dictKeys metadata).filter
            (fun k => !order.contains k)))).metadata,
        (List.foldl (parseStep metadata quoted) ⟨[], [], [], none⟩
          (dedupSeen [] (order ++ (dictKeys metadata).filter
            (fun k => !order.contains k)))).order,
        (List.foldl (parseStep metadata quoted) ⟨[], [], [], none⟩
          (dedupSeen [] (order ++ (dictKeys metadata).filter
            (fun k => !order.contains k)))).quoted) :=
    parse_fm_framed _ _ hbody
  refine ⟨_, hparse, ?_⟩
  show serialize_front_matter _ _ _ = _
  rw [e1, e2, e3, serialize_parsed_eq metadata quoted _ hnd]
  show _ = "---" :: serFmGo metadata quoted []
    (order ++ (dictKeys metadata).filter (fun k => !order.contains k)) ++ ["---"]
  rw [serFmGo_eq_flatten metadata quoted
    (order ++ (dictKeys metadata).filter (fun k => !order.contains k)) []]

/-- C2 witness: a concrete clean triple (an out-of-dict quoted key, a colon
scalar, a two item list) satisfies the hypotheses and round-trips. -/
theorem c2_witness :
    (∀ k ∈ ["title"], cleanFmKey k = true) ∧
    (∀ p ∈ [("title", YamlValue.scalar "A: B"), ("tags", YamlValue.items ["x", "y"])],
       cleanFmKey p.1 = true ∧ cleanFmValue p.2 = true) ∧
    ∃ t : FmDict × List String × List String,
      parse_front_matter_block (serialize_front_matter
          [("title", YamlValue.scalar "A: B"), ("tags", YamlValue.items ["x", "y"])]
          ["title"] ["extra"]) = some t ∧
      serialize_front_matter t.1 t.2.1 t.2.2
        = serialize_front_matter
            [("title", YamlValue.scalar "A: B"), ("tags", YamlValue.items ["x", "y"])]
            ["title"] ["extra"] :=
  ⟨by decide, by decide,
    c2_front_matter_roundtrip
      [("title", YamlValue.scalar "A: B"), ("tags", YamlValue.items ["x", "y"])]
      ["title"] ["extra"] (by decide) (by decide)⟩
